import Mathlib

/-!
Verification of the economy-simulator allocation engine.

The development shallowly embeds the engine's data model and the allocation
algorithms in Lean.  JavaScript's IEEE-754 arithmetic is modelled by exact
rational arithmetic (`ℚ`); `Math.pow` with a possibly irrational result is
modelled over `ℝ` (`Real.rpow`) for the utility-function specification, and
over `ℚ` by `powQ`, which is exact whenever the exponent is an integer — the
only case the embedded algorithm runs below ever reach in the statements
proved about them.  Division by zero, which JavaScript maps to `±Infinity`
or `NaN`, is modelled by the explicit value type `JsVal` at the single place
the algorithms can divide by zero (the marginal-utility-per-cost comparison).

Source correspondence is noted on every definition.
-/

/-- The spending-category record (src/scripts/economy-model.ts, `Category`).
All numeric fields are JavaScript numbers, modelled as rationals. -/
structure Category where
  name : String
  price : ℚ
  utilityFactor : ℚ
  basicNeedAmount : ℚ
  diminishingFactor : ℚ
  necessityLevel : ℚ
deriving DecidableEq, Repr

/-- A per-category allocation (algorithm-interface.ts, `AllocationResult.allocations` element). -/
structure Alloc where
  category : Category
  quantity : ℚ
  utility : ℚ
  spent : ℚ
deriving DecidableEq, Repr

/-- The whole-budget result (algorithm-interface.ts, `AllocationResult`).
The optional `message` field is modelled as a string, empty when absent. -/
structure AllocationResult where
  allocations : List Alloc
  totalUtility : ℚ
  totalSpent : ℚ
  message : String
deriving DecidableEq, Repr

/-- Exact model of `Math.pow base e` for the cases the embedded algorithms
evaluate: an integer exponent.  For a non-integer exponent the result is in
general irrational and this rational-valued model returns the junk value 0;
no theorem below depends on the value of that branch (the real-valued
`calculateUtilityR` uses `Real.rpow` instead). -/
def powQ (base e : ℚ) : ℚ :=
  if e.den = 1 then base ^ e.num else 0

/-- The utility function over rationals
(src/scripts/economy-model.ts, `calculateUtility`, lines 20–56), evaluated by
every unit-greedy algorithm at whole-unit quantities, where `powQ` is exact
whenever its exponent is an integer. -/
def calculateUtilityQ (category : Category) (quantity : ℚ) : ℚ :=
  if quantity = 0 ∧ 5 < category.necessityLevel then
    -1000 * category.necessityLevel
  else if quantity < category.basicNeedAmount then
    let needSatisfactionRatio := quantity / category.basicNeedAmount
    category.utilityFactor * category.necessityLevel *
      powQ needSatisfactionRatio (1 / category.necessityLevel) * quantity
  else
    let baseUtility :=
      category.utilityFactor * category.necessityLevel * category.basicNeedAmount
    let excessQuantity := quantity - category.basicNeedAmount
    let diminishedUtility :=
      excessQuantity * category.utilityFactor *
        powQ category.diminishingFactor excessQuantity
    baseUtility + diminishedUtility

open Classical in
/-- The utility function over the reals
(src/scripts/economy-model.ts, `calculateUtility`, lines 20–56), with
`Math.pow` modelled by `Real.rpow`. -/
noncomputable def calculateUtilityR (category : Category) (quantity : ℝ) : ℝ :=
  if quantity = 0 ∧ 5 < category.necessityLevel then
    -1000 * (category.necessityLevel : ℝ)
  else if quantity < (category.basicNeedAmount : ℝ) then
    let needSatisfactionRatio := quantity / (category.basicNeedAmount : ℝ)
    (category.utilityFactor : ℝ) * (category.necessityLevel : ℝ) *
      needSatisfactionRatio ^ (1 / (category.necessityLevel : ℝ)) * quantity
  else
    let baseUtility :=
      (category.utilityFactor : ℝ) * (category.necessityLevel : ℝ) *
        (category.basicNeedAmount : ℝ)
    let excessQuantity := quantity - (category.basicNeedAmount : ℝ)
    let diminishedUtility :=
      excessQuantity * (category.utilityFactor : ℝ) *
        (category.diminishingFactor : ℝ) ^ excessQuantity
    baseUtility + diminishedUtility

open Classical in
/-- Modelled from the spec (§4.1): the piecewise utility value the
specification prescribes, written directly from the spec's three regime
descriptions, to be compared with the embedding of the source code. -/
noncomputable def specUtility (category : Category) (quantity : ℝ) : ℝ :=
  if quantity = 0 ∧ 5 < category.necessityLevel then
    -1000 * (category.necessityLevel : ℝ)
  else if quantity < (category.basicNeedAmount : ℝ) then
    (category.utilityFactor : ℝ) * (category.necessityLevel : ℝ) *
      (quantity / (category.basicNeedAmount : ℝ)) ^ (1 / (category.necessityLevel : ℝ)) *
      quantity
  else
    (category.utilityFactor : ℝ) * (category.necessityLevel : ℝ) *
        (category.basicNeedAmount : ℝ) +
      (quantity - (category.basicNeedAmount : ℝ)) * (category.utilityFactor : ℝ) *
        (category.diminishingFactor : ℝ) ^ (quantity - (category.basicNeedAmount : ℝ))

/-- C1: for every category and every quantity, `calculateUtility` returns
exactly the spec's piecewise value: `-1000 * necessityLevel` when
`quantity = 0` and `necessityLevel > 5`; otherwise
`utilityFactor * necessityLevel * (quantity/basicNeedAmount)^(1/necessityLevel) * quantity`
when `quantity < basicNeedAmount`; otherwise
`utilityFactor * necessityLevel * basicNeedAmount + excess * utilityFactor * diminishingFactor^excess`
with `excess = quantity - basicNeedAmount`. -/
theorem C1_calculateUtility_matches_spec (category : Category) (quantity : ℝ) :
    calculateUtilityR category quantity = specUtility category quantity := by
  unfold calculateUtilityR specUtility
  rfl

/-- The value of a JavaScript floating-point division where the divisor may be
zero: `marginal / 0` is `+Infinity`, `-Infinity` or `NaN` depending on the sign
of `marginal`.  Only the greedy algorithms' utility-per-cost comparison can
divide by zero, and this type models exactly that comparison. -/
inductive JsVal where
  | nan : JsVal
  | negInf : JsVal
  | rat : ℚ → JsVal
  | posInf : JsVal
deriving DecidableEq, Repr

/-- JavaScript division `a / b` of two finite numbers. -/
def jsDiv (a b : ℚ) : JsVal :=
  if b = 0 then
    if 0 < a then JsVal.posInf else if a < 0 then JsVal.negInf else JsVal.nan
  else JsVal.rat (a / b)

/-- The IEEE-754 strict `>` comparison on `JsVal` (`NaN` compares false). -/
def JsVal.gt : JsVal → JsVal → Bool
  | JsVal.nan, _ => false
  | _, JsVal.nan => false
  | JsVal.posInf, JsVal.posInf => false
  | JsVal.posInf, _ => true
  | _, JsVal.posInf => false
  | JsVal.negInf, _ => false
  | JsVal.rat _, JsVal.negInf => true
  | JsVal.rat a, JsVal.rat b => decide (b < a)

/-- Stable insertion of `a` into `l`: `a` goes in front of the first element
`b` with `le a b`. -/
def insertB {α : Type} (le : α → α → Bool) (a : α) : List α → List α
  | [] => [a]
  | b :: l => if le a b then a :: b :: l else b :: insertB le a l

/-- Stable insertion sort; models `Array.prototype.sort` (a stable sort) with
comparator-derived relation `le a b = (comparator a b ≤ 0)`.  For the
consistent comparators used on the inputs of the theorems below this agrees
with the engine's sort. -/
def sortB {α : Type} (le : α → α → Bool) : List α → List α
  | [] => []
  | a :: l => insertB le a (sortB le l)

/-- The Priority-Necessity sort comparator
(priority-necessity-algorithm.ts, lines 19–26): descending necessity level,
ties broken by descending utility-to-price ratio.  (In Lean `x / 0 = 0`; the
JavaScript ratio branch with a zero price yields `Infinity`, but no theorem
below evaluates the comparator on a tie involving a zero price.) -/
def jsCompareCats (a b : Category) : ℚ :=
  if b.necessityLevel ≠ a.necessityLevel then b.necessityLevel - a.necessityLevel
  else b.utilityFactor / b.price - a.utilityFactor / a.price

/-- Sorting a category list with the Priority-Necessity comparator. -/
def sortCats (cats : List Category) : List Category :=
  sortB (fun a b => decide (jsCompareCats a b ≤ 0)) cats

/-- The mutable state shared by the two passes of the greedy algorithms:
the allocation array, the remaining budget and the running total utility. -/
structure GreedyState where
  allocs : List Alloc
  rem : ℚ
  totalUtility : ℚ
deriving DecidableEq, Repr

/-- One basic-needs `while` loop iteration state: quantity bought so far,
amount spent and remaining budget.  The loop
(priority-necessity-algorithm.ts, lines 49–57) buys one whole unit at a time
while `quantity < basicNeedAmount` and `price ≤ remainingBudget`.  The fuel
`⌈basicNeedAmount⌉.toNat` is exactly enough: after that many unit purchases
the quantity test fails, so the fuel-out branch is unreachable. -/
def needsLoop (price basicNeedAmount : ℚ) :
    ℕ → ℚ → ℚ → ℚ → ℚ × ℚ × ℚ
  | 0, quantity, spent, rem => (quantity, spent, rem)
  | fuel + 1, quantity, spent, rem =>
    if quantity < basicNeedAmount ∧ price ≤ rem then
      needsLoop price basicNeedAmount fuel (quantity + 1) (spent + price) (rem - price)
    else (quantity, spent, rem)

/-- One category of the first pass of the Priority-Necessity algorithm
(priority-necessity-algorithm.ts, lines 34–62): skip non-positive prices,
greedily buy whole units up to the basic need while budget remains, then
record the allocation and its utility. -/
def pnPhase1Step (u : Category → ℚ → ℚ) (st : GreedyState) (category : Category) :
    GreedyState :=
  if category.price ≤ 0 then st
  else
    let r := needsLoop category.price category.basicNeedAmount
      (⌈category.basicNeedAmount⌉.toNat) 0 0 st.rem
    let util := u category r.1
    { allocs := st.allocs ++ [⟨category, r.1, util, r.2.1⟩]
      rem := r.2.2
      totalUtility := st.totalUtility + util }

/-- First pass of the Priority-Necessity algorithm
(priority-necessity-algorithm.ts, lines 32–62): walk the sorted categories in
order, starting from an empty allocation list and the whole budget. -/
def pnPhase1 (u : Category → ℚ → ℚ) (sorted : List Category) (budget : ℚ) :
    GreedyState :=
  sorted.foldl (pnPhase1Step u) ⟨[], budget, 0⟩

/-- The scan for the best marginal-utility-per-cost purchase
(priority-necessity-algorithm.ts, lines 71–89; identical loops in
pure-utility-algorithm.ts and the Balanced-Approach file): for each index
whose price is affordable, compute `(u(q+1) - u(q)) / price` and keep the
strictly largest, starting from best value `0` and no index. -/
def findBestAux (u : Category → ℚ → ℚ) (rem : ℚ) :
    List Alloc → ℕ → JsVal → Option ℕ → JsVal × Option ℕ
  | [], _, best, bestIdx => (best, bestIdx)
  | a :: rest, i, best, bestIdx =>
    if a.category.price ≤ rem then
      let currentUtility := u a.category a.quantity
      let newUtility := u a.category (a.quantity + 1)
      let utilityPerCost := jsDiv (newUtility - currentUtility) a.category.price
      if utilityPerCost.gt best then
        findBestAux u rem rest (i + 1) utilityPerCost (some i)
      else findBestAux u rem rest (i + 1) best bestIdx
    else findBestAux u rem rest (i + 1) best bestIdx

/-- The full best-purchase scan over the allocation array. -/
def findBest (u : Category → ℚ → ℚ) (rem : ℚ) (allocs : List Alloc) :
    JsVal × Option ℕ :=
  findBestAux u rem allocs 0 (JsVal.rat 0) none

/-- Buying one unit of the category at index `i`
(priority-necessity-algorithm.ts, lines 92–100): increment quantity, add the
price to the spent amount, recompute the utility, add the utility gain to the
total, subtract the price from the remaining budget. -/
def buyAt (u : Category → ℚ → ℚ) (st : GreedyState) (i : ℕ) : GreedyState :=
  match st.allocs[i]? with
  | none => st
  | some a =>
    let newUtility := u a.category (a.quantity + 1)
    let utilityGain := newUtility - a.utility
    { allocs := st.allocs.set i
        ⟨a.category, a.quantity + 1, newUtility, a.spent + a.category.price⟩
      rem := st.rem - a.category.price
      totalUtility := st.totalUtility + utilityGain }

/-- The surplus `while` loop
(priority-necessity-algorithm.ts, lines 66–105; pure-utility-algorithm.ts,
lines 28–69; the Balanced-Approach file, lines 77–118): while budget remains,
buy one unit of the best positive-ratio affordable category, else break.
`none` means the given fuel was exhausted before the loop finished; the
JavaScript loop has no fuel, so a result is faithful only when it is `some`. -/
def phase2 (u : Category → ℚ → ℚ) : ℕ → GreedyState → Option GreedyState
  | 0, _ => none
  | fuel + 1, st =>
    if 0 < st.rem then
      match findBest u st.rem st.allocs with
      | (best, some i) =>
        if best.gt (JsVal.rat 0) then phase2 u fuel (buyAt u st i) else some st
      | (_, none) => some st
    else some st

/-- Model of `Number.prototype.toFixed 2`, with round-half-up tie-breaking (ties are
irrelevant to every statement below; no theorem inspects this string's
digits). -/
def toFixed2 (x : ℚ) : String :=
  let n : ℤ := round (x * 100)
  let m := n.natAbs
  (if n < 0 then "-" else "") ++ toString (m / 100) ++ "." ++
    (if m % 100 < 10 then "0" else "") ++ toString (m % 100)

/-- The unmet-needs filter (priority-necessity-algorithm.ts, lines 115–119):
allocations whose quantity is below the basic need of a category with
necessity level above 3. -/
def unmetNeedsOf (allocs : List Alloc) : List Alloc :=
  allocs.filter fun a =>
    decide (a.quantity < a.category.basicNeedAmount) &&
      decide (3 < a.category.necessityLevel)

/-- Result assembly of the Priority-Necessity algorithm
(priority-necessity-algorithm.ts, lines 107–131): `totalSpent` is
`budget - remainingBudget`; the message reports leftover budget, overwritten
by the unmet-needs message when some basic need with necessity above 3 is not
met. -/
def pnMkResult (budget : ℚ) (st : GreedyState) : AllocationResult :=
  let totalSpent := budget - st.rem
  let message :=
    if totalSpent < budget then
      "Budget not fully spent. Remaining: " ++ toFixed2 st.rem
    else ""
  let unmetNeeds := unmetNeedsOf st.allocs
  let message :=
    if 0 < unmetNeeds.length then
      "Basic needs not fully met for: " ++
        String.intercalate ", " (unmetNeeds.map fun a => a.category.name) ++
        ". Budget insufficient."
    else message
  ⟨st.allocs, st.totalUtility, totalSpent, message⟩

/-- The smallest category price occurring in an allocation list, capped at 1;
used only to compute a sufficient fuel for the surplus loop. -/
def minPriceOf (allocs : List Alloc) : ℚ :=
  (allocs.map fun a => a.category.price).foldr min 1

/-- A fuel that suffices for the surplus loop whenever every allocated
category has a positive price (proved below): every iteration either breaks
or spends at least the minimum price. -/
def pnFuel (st : GreedyState) : ℕ :=
  (⌈st.rem / minPriceOf st.allocs⌉).toNat + 1

/-- The whole of `PriorityNecessityAlgorithm.calculate`
(priority-necessity-algorithm.ts, lines 17–132), with the surplus loop run on
the sufficient fuel `pnFuel` (every category it can buy has positive price,
because the first pass skips the rest, so the loop terminates; `none` is
impossible and is proved so below). -/
def priorityNecessityRun (cats : List Category) (budget : ℚ) :
    Option AllocationResult :=
  let sorted := sortCats cats
  let st := pnPhase1 calculateUtilityQ sorted budget
  match phase2 calculateUtilityQ (pnFuel st) st with
  | none => none
  | some st2 => some (pnMkResult budget st2)

/-- Result assembly of the Pure-Utility algorithm
(pure-utility-algorithm.ts, lines 71–95): as for Priority-Necessity but with
its own unmet-needs message text, and the allocations re-sorted by descending
amount spent. -/
def puMkResult (budget : ℚ) (st : GreedyState) : AllocationResult :=
  let totalSpent := budget - st.rem
  let message :=
    if totalSpent < budget then
      "Budget not fully spent. Remaining: " ++ toFixed2 st.rem
    else ""
  let unmetNeeds := unmetNeedsOf st.allocs
  let message :=
    if 0 < unmetNeeds.length then
      "Basic needs not fully met for: " ++
        String.intercalate ", " (unmetNeeds.map fun a => a.category.name) ++
        ". Note: this algorithm does not prioritize necessity."
    else message
  ⟨sortB (fun a b => decide (b.spent - a.spent ≤ 0)) st.allocs,
    st.totalUtility, totalSpent, message⟩

/-- The whole of `PureUtilityAlgorithm.calculate` (pure-utility-algorithm.ts, lines
17–97): one allocation per category in input order, then the single greedy
surplus loop over the whole budget.  The JavaScript loop is unbounded, so the
model takes the fuel as a parameter; `none` means the loop was still running
after `fuel` iterations. -/
def pureUtilityRun (fuel : ℕ) (cats : List Category) (budget : ℚ) :
    Option AllocationResult :=
  let allocations := cats.map fun category => (⟨category, 0, 0, 0⟩ : Alloc)
  match phase2 calculateUtilityQ fuel ⟨allocations, budget, 0⟩ with
  | none => none
  | some st2 => some (puMkResult budget st2)

/-- A category value used only for out-of-range list indexing, which the
Balanced-Approach index sort never actually performs. -/
def defaultCategory : Category := ⟨"", 0, 0, 0, 0, 0⟩

/-- The Balanced-Approach index comparator (Balanced-Approach file, lines
38–42): sort the allocation indices by descending necessity level of the
category at the same (input-order) index. -/
def baIndexLE (cats : List Category) (i j : ℕ) : Bool :=
  decide ((cats.getD j defaultCategory).necessityLevel -
    (cats.getD i defaultCategory).necessityLevel ≤ 0)

/-- Phase 1 of the Balanced-Approach algorithm (Balanced-Approach file,
lines 44–71): walk the indices in descending-necessity order; give each
category the necessity-proportional share `remainingBasic * necessity/10` of
the remaining basic-needs pool, buy `min(⌊share/price⌋, basicNeedAmount)`
units if that is positive, and deduct the spend from the pool. -/
def baPhase1Step (u : Category → ℚ → ℚ) :
    List Alloc × ℚ × ℚ → ℕ → List Alloc × ℚ × ℚ
  | (allocs, remBasic, totalU), index =>
    match allocs[index]? with
    | none => (allocs, remBasic, totalU)
    | some a =>
      if a.category.price ≤ 0 then (allocs, remBasic, totalU)
      else
        let necessityRatio := a.category.necessityLevel / 10
        let categoryBasicBudget := remBasic * necessityRatio
        let affordableUnits : ℤ := ⌊categoryBasicBudget / a.category.price⌋
        let unitsToBuy := min (affordableUnits : ℚ) a.category.basicNeedAmount
        if 0 < unitsToBuy then
          let spent := unitsToBuy * a.category.price
          let util := u a.category unitsToBuy
          (allocs.set index ⟨a.category, unitsToBuy, util, spent⟩,
            remBasic - spent, totalU + util)
        else (allocs, remBasic, totalU)

/-- The state of `BalancedApproachAlgorithm.calculate` when its surplus loop
starts (Balanced-Approach file, lines 20–75): the budget is split 60/40 into
a basic-needs pool and a discretionary pool, the proportional basic-needs
pass runs, and the unused pool rolls into the discretionary budget. -/
def baState (cats : List Category) (budget : ℚ) : GreedyState :=
  let basicNeedsBudget := budget * (6 / 10)
  let discretionaryBudget := budget - basicNeedsBudget
  let allocations := cats.map fun category => (⟨category, 0, 0, 0⟩ : Alloc)
  let sortedIndices := sortB (baIndexLE cats) (List.range cats.length)
  let p1 := sortedIndices.foldl (baPhase1Step calculateUtilityQ)
    (allocations, basicNeedsBudget, 0)
  ⟨p1.1, discretionaryBudget + p1.2.1, p1.2.2⟩

/-- The whole of `BalancedApproachAlgorithm.calculate` (Balanced-Approach file, lines
20–151): the basic-needs pass, then the greedy surplus loop on the
discretionary budget (fuel-modelled as in `pureUtilityRun`), then the result
with the allocations re-sorted by descending necessity then descending spend.
Its unmet-needs filter uses necessity level above 5. -/
def balancedRun (fuel : ℕ) (cats : List Category) (budget : ℚ) :
    Option AllocationResult :=
  match phase2 calculateUtilityQ fuel (baState cats budget) with
  | none => none
  | some st2 =>
    let totalSpent := budget - st2.rem
    let message :=
      if totalSpent < budget then
        "Budget not fully spent. Remaining: " ++ toFixed2 st2.rem
      else ""
    let unmetNeeds := st2.allocs.filter fun a =>
      decide (a.quantity < a.category.basicNeedAmount) &&
        decide (5 < a.category.necessityLevel)
    let message :=
      if 0 < unmetNeeds.length then
        "Basic needs not fully met for: " ++
          String.intercalate ", " (unmetNeeds.map fun a => a.category.name) ++
          ". Budget insufficient."
      else message
    some ⟨sortB (fun a b =>
        decide ((if b.category.necessityLevel - a.category.necessityLevel ≠ 0 then
          b.category.necessityLevel - a.category.necessityLevel
        else b.spent - a.spent) ≤ 0)) st2.allocs,
      st2.totalUtility, totalSpent, message⟩

/-- The whole of `SimpleProportionsAlgorithm.calculate`
(simple-proportions-algorithm.ts, lines 12–62): per category in input order,
a free or zero-utility category is granted its basic need amount, and an
affordable one is given the spend `budget * utilityFactor*basicNeedAmount/price`
while only `price` is deducted from the remaining budget.  The file's unused
`totalUtilityPerBuck` accumulator is dead code and carried unused here. -/
def simpleProportionsCalculate (cats : List Category) (budget : ℚ) :
    AllocationResult :=
  let allocations := cats.map fun category => (⟨category, 0, 0, 0⟩ : Alloc)
  let _totalUtilityPerBuck := cats.foldl
    (fun acc cat =>
      if cat.price = 0 ∨ cat.utilityFactor = 0 then acc
      else acc + cat.utilityFactor * cat.basicNeedAmount / cat.price) 0
  let r := allocations.foldl
    (fun (r : List Alloc × ℚ × ℚ × ℚ) a =>
      let (done, totalSpent, totalU, rem) := r
      if a.category.price = 0 ∨ a.category.utilityFactor = 0 then
        (done ++ [⟨a.category, a.category.basicNeedAmount, a.utility, a.spent⟩],
          totalSpent, totalU, rem)
      else if a.category.price ≤ rem then
        let spent := budget *
          (a.category.utilityFactor * a.category.basicNeedAmount / a.category.price)
        let quantity := spent / a.category.price
        let utility := quantity * a.category.utilityFactor
        (done ++ [⟨a.category, quantity, utility, spent⟩],
          totalSpent + spent, totalU + utility, rem - a.category.price)
      else (done ++ [a], totalSpent, totalU, rem))
    ([], 0, 0, budget)
  ⟨r.1, r.2.2.1, r.2.1, "This is a scaffold - implement your algorithm logic!"⟩

/-- The whole of `BlurAlgorithm.calculate` (blur-algorithm.ts, lines 12–55): sort the
allocations by descending utility-per-price, then give each affordable
category the affordable fraction of its basic need; note that the running
`totalUtility` adds `utility * basicNeedAmount * ratio`, not the stored
`utility`.  The JavaScript affordability ratio compares
`rem / (price*basicNeedAmount) ≤ 1`, which is false for a zero divisor
(`Infinity`/`NaN`), hence the explicit divisor test here. -/
def blurCalculate (cats : List Category) (budget : ℚ) : AllocationResult :=
  let allocations := cats.map fun category => (⟨category, 0, 0, 0⟩ : Alloc)
  let sorted := sortB (fun a b =>
    decide (b.category.utilityFactor / b.category.price -
      a.category.utilityFactor / a.category.price ≤ 0)) allocations
  let r := sorted.foldl
    (fun (r : List Alloc × ℚ × ℚ) a =>
      let (done, totalU, rem) := r
      if a.category.price ≤ rem then
        let d := a.category.price * a.category.basicNeedAmount
        let canAffordRatio := if d ≠ 0 ∧ rem / d ≤ 1 then rem / d else 1
        let quantity := a.category.basicNeedAmount * canAffordRatio
        let spent := a.category.price * a.category.basicNeedAmount * canAffordRatio
        let utility := a.category.utilityFactor * a.category.basicNeedAmount * canAffordRatio
        (done ++ [⟨a.category, quantity, utility, spent⟩],
          totalU + utility * (a.category.basicNeedAmount * canAffordRatio),
          rem - a.category.price * a.category.basicNeedAmount * canAffordRatio)
      else (done ++ [a], totalU, rem))
    ([], 0, budget)
  ⟨r.1, r.2.1, budget - r.2.2, "This is a scaffold - implement your algorithm logic!"⟩

/-- Usefulness predicate of the gradient-descent optimizer
(gradient-descent-algorithm.ts, line 39): positive price, utility factor and
basic need amount. -/
def gdUseful (c : Category) : Bool :=
  decide (0 < c.price) && decide (0 < c.utilityFactor) && decide (0 < c.basicNeedAmount)

/-- Model of `MarginalUtilityOptimizer.solveForQuantity`
(gradient-descent-algorithm.ts, lines 102–127): the quantity at a target
marginal utility per dollar, capped at the basic need amount. -/
def gdSolveForQuantity (c : Category) (target : ℚ) : ℚ :=
  let qty := 2 * c.price * target / c.utilityFactor
  if c.basicNeedAmount < qty then c.basicNeedAmount else qty

/-- Model of `MarginalUtilityOptimizer.calculateTotalUtility`
(gradient-descent-algorithm.ts, lines 130–138): linear-in-quantity utility
halved, flat beyond the basic need amount. -/
def gdTotalUtility (c : Category) (quantity : ℚ) : ℚ :=
  if c.basicNeedAmount < quantity then c.utilityFactor * c.basicNeedAmount / 2
  else c.utilityFactor * quantity / 2

/-- The optimizer constant `BUDGET_TOLERANCE = 0.00000001`. -/
def gdTol : ℚ := 1 / 100000000

/-- The total cost of the implied quantities at a candidate threshold
(gradient-descent-algorithm.ts, lines 74–82). -/
def gdTotalCost (useful : List Alloc) (mid : ℚ) : ℚ :=
  useful.foldl
    (fun acc a =>
      if a.category.price = 0 then acc
      else acc + gdSolveForQuantity a.category mid * a.category.price) 0

/-- Model of `MarginalUtilityOptimizer.findOptimalMarginalUtility`
(gradient-descent-algorithm.ts, lines 67–96): bisection on the threshold
until the bracket is narrower than the tolerance, with an early return when
the cost matches the budget within tolerance.  The fuel passed by
`gdCalculate` always exceeds the number of halvings the bracket admits, so
the fuel-out branch is unreachable. -/
def gdSearch (useful : List Alloc) (budget : ℚ) :
    ℕ → ℚ → ℚ → ℚ
  | 0, low, high => (low + high) / 2
  | fuel + 1, low, high =>
    if gdTol < high - low then
      let mid := (low + high) / 2
      let totalCost := gdTotalCost useful mid
      if |totalCost - budget| < gdTol then mid
      else if budget < totalCost then gdSearch useful budget fuel mid high
      else gdSearch useful budget fuel low mid
    else (low + high) / 2

/-- Result assembly of the gradient-descent optimizer
(gradient-descent-algorithm.ts, `finalizeResult`, lines 143–167).  The
JavaScript message interpolates the raw `budget` number; its digit-for-digit
rendering is not modelled (`toFixed2` stands in), and no theorem below
inspects this message. -/
def gdFinalize (allocations : List Alloc) (budget rem : ℚ) (iterations : ℕ) :
    AllocationResult :=
  let totalSpent := budget - rem
  let totalUtility := allocations.foldl (fun sum a => sum + a.utility) 0
  ⟨allocations, totalUtility, totalSpent,
    "Maximized utility after " ++ toString iterations ++ " iterations. Spent " ++
      toFixed2 totalSpent ++ " of " ++ toFixed2 budget ++ " budget."⟩

/-- The whole of `MarginalUtilityOptimizer.calculate`
(gradient-descent-algorithm.ts, lines 18–65).  The source's filter callback
first grants each free positive-utility category its basic need amount at
zero spend by mutating the allocation in place, and keeps only the "useful"
allocations; afterwards the loop mutates exactly the useful allocations,
which alias entries of the full array.  The aliasing is modelled by mapping
the grant over the array and updating the entries satisfying the same
predicate in place. -/
def gdCalculate (cats : List Category) (budget : ℚ) : AllocationResult :=
  let allocations := cats.map fun category => (⟨category, 0, 0, 0⟩ : Alloc)
  let allocations := allocations.map fun a =>
    if a.category.price = 0 ∧ 0 < a.category.utilityFactor ∧
        0 < a.category.basicNeedAmount then
      ⟨a.category, a.category.basicNeedAmount, a.utility, 0⟩
    else a
  let useful := allocations.filter fun a => gdUseful a.category
  if useful.length = 0 ∨ budget ≤ 0 then
    gdFinalize allocations budget budget 0
  else
    let high := 2 * (match useful.map
        (fun a => a.category.utilityFactor / a.category.price) with
      | [] => 0
      | x :: xs => xs.foldl max x)
    let fuel := (⌈high / gdTol⌉).toNat + 1
    let target := gdSearch useful budget fuel 0 high
    let allocations2 := allocations.map fun a =>
      if gdUseful a.category then
        let quantity := gdSolveForQuantity a.category target
        ⟨a.category, quantity, gdTotalUtility a.category quantity,
          quantity * a.category.price⟩
      else a
    let totalSpent := (allocations.filter fun a => gdUseful a.category).foldl
      (fun acc a => acc + gdSolveForQuantity a.category target * a.category.price) 0
    gdFinalize allocations2 budget (budget - totalSpent) 1

/-- Any index produced by the best-purchase scan either was the incoming
running best or points at an affordable allocation of the scanned list. -/
theorem findBestAux_sound (u : Category → ℚ → ℚ) (rem : ℚ) (l : List Alloc) :
    ∀ (i0 : ℕ) (best : JsVal) (idx0 : Option ℕ) (j : ℕ),
      (findBestAux u rem l i0 best idx0).2 = some j →
      idx0 = some j ∨ i0 ≤ j ∧ ∃ a, l[j - i0]? = some a ∧ a.category.price ≤ rem := by
  induction l with
  | nil => intro i0 best idx0 j h; exact Or.inl (by simpa [findBestAux] using h)
  | cons a rest ih =>
    intro i0 best idx0 j h
    unfold findBestAux at h
    by_cases hp : a.category.price ≤ rem
    · rw [if_pos hp] at h
      by_cases hgt : (jsDiv (u a.category (a.quantity + 1) - u a.category a.quantity)
          a.category.price).gt best
      · simp only [hgt, if_true] at h
        rcases ih (i0 + 1) _ (some i0) j h with h1 | ⟨h2, b, hb, hble⟩
        · right
          obtain rfl : i0 = j := by simpa using h1
          exact ⟨le_rfl, a, by simp, hp⟩
        · right
          refine ⟨by omega, b, ?_, hble⟩
          have : j - i0 = (j - (i0 + 1)) + 1 := by omega
          rw [this, List.getElem?_cons_succ]
          exact hb
      · simp only [hgt, if_false] at h
        rcases ih (i0 + 1) best idx0 j h with h1 | ⟨h2, b, hb, hble⟩
        · exact Or.inl h1
        · right
          refine ⟨by omega, b, ?_, hble⟩
          have : j - i0 = (j - (i0 + 1)) + 1 := by omega
          rw [this, List.getElem?_cons_succ]
          exact hb
    · rw [if_neg hp] at h
      rcases ih (i0 + 1) best idx0 j h with h1 | ⟨h2, b, hb, hble⟩
      · exact Or.inl h1
      · right
        refine ⟨by omega, b, ?_, hble⟩
        have : j - i0 = (j - (i0 + 1)) + 1 := by omega
        rw [this, List.getElem?_cons_succ]
        exact hb

/-- The best-purchase scan only selects an affordable allocation. -/
theorem findBest_sound (u : Category → ℚ → ℚ) (rem : ℚ) (allocs : List Alloc)
    (j : ℕ) (h : (findBest u rem allocs).2 = some j) :
    ∃ a, allocs[j]? = some a ∧ a.category.price ≤ rem := by
  rcases findBestAux_sound u rem allocs 0 (JsVal.rat 0) none j h with h1 | ⟨_, b, hb, hble⟩
  · exact absurd h1 (by simp)
  · exact ⟨b, by simpa using hb, hble⟩

/-- Setting an index to an element already there leaves a list unchanged. -/
theorem set_getElem_eq_self {α : Type} :
    ∀ (l : List α) (i : ℕ) (a : α), l[i]? = some a → l.set i a = l
  | [], _, _, h => by simp at h
  | x :: l, 0, a, h => by simp_all
  | x :: l, i + 1, a, h => by
    simp only [List.getElem?_cons_succ] at h
    simp [List.set_cons_succ, set_getElem_eq_self l i a h]

/-- Buying a unit keeps the remaining budget equation explicit. -/
theorem buyAt_rem (u : Category → ℚ → ℚ) (st : GreedyState) (i : ℕ) (a : Alloc)
    (h : st.allocs[i]? = some a) :
    (buyAt u st i).rem = st.rem - a.category.price := by
  simp [buyAt, h]

/-- An element read off a list by index is a member of the list. -/
theorem mem_of_getElem_eq {α : Type} {l : List α} {i : ℕ} {a : α}
    (h : l[i]? = some a) : a ∈ l := by
  obtain ⟨hlt, rfl⟩ := List.getElem?_eq_some.mp h
  exact List.getElem_mem hlt

/-- Buying a unit preserves any property of the allocated categories. -/
theorem buyAt_pred (u : Category → ℚ → ℚ) (st : GreedyState) (i : ℕ)
    (P : Category → Prop) (h : ∀ a ∈ st.allocs, P a.category) :
    ∀ b ∈ (buyAt u st i).allocs, P b.category := by
  unfold buyAt
  cases hgi : st.allocs[i]? with
  | none => simpa using h
  | some a =>
    have hmem : a ∈ st.allocs := mem_of_getElem_eq hgi
    intro b hb
    dsimp only at hb
    rcases List.mem_or_eq_of_mem_set hb with h1 | rfl
    · exact h b h1
    · exact h a hmem

/-- The surplus loop finishes within `n + 1` iterations whenever every
allocated category's price is at least `p0 > 0` and at most `n * p0` budget
remains: each purchase costs at least `p0`. -/
theorem phase2_isSome (u : Category → ℚ → ℚ) (p0 : ℚ) :
    ∀ (n : ℕ) (st : GreedyState),
      (∀ a ∈ st.allocs, p0 ≤ a.category.price) → st.rem ≤ n * p0 →
      (phase2 u (n + 1) st).isSome := by
  intro n
  induction n with
  | zero =>
    intro st hall hrem
    unfold phase2
    have h0 : ¬ 0 < st.rem := by
      simp only [Nat.cast_zero, zero_mul] at hrem
      exact not_lt.mpr hrem
    rw [if_neg h0]
    rfl
  | succ m ih =>
    intro st hall hrem
    unfold phase2
    by_cases h0 : 0 < st.rem
    · rw [if_pos h0]
      rcases hfb : findBest u st.rem st.allocs with ⟨best, idx⟩
      cases idx with
      | none => simp
      | some i =>
        simp only
        by_cases hgt : best.gt (JsVal.rat 0)
        · rw [if_pos hgt]
          obtain ⟨a, hgi, _⟩ := findBest_sound u st.rem st.allocs i
            (by rw [hfb])
          have hmem : a ∈ st.allocs := mem_of_getElem_eq hgi
          refine ih (buyAt u st i)
            (fun b hb => buyAt_pred u st i (fun c => p0 ≤ c.price) hall b hb) ?_
          rw [buyAt_rem u st i a hgi]
          have hpa : p0 ≤ a.category.price := hall a hmem
          push_cast at hrem ⊢
          linarith
        · rw [if_neg hgt]
          simp
    · rw [if_neg h0]
      simp

/-- The capped minimum price is positive when every listed price is. -/
theorem minPriceOf_pos (allocs : List Alloc)
    (h : ∀ a ∈ allocs, 0 < a.category.price) : 0 < minPriceOf allocs := by
  induction allocs with
  | nil => norm_num [minPriceOf]
  | cons a l ih =>
    have := h a (by simp)
    have h2 := ih fun b hb => h b (by simp [hb])
    simp only [minPriceOf, List.map_cons, List.foldr_cons] at h2 ⊢
    exact lt_min this h2

/-- The capped minimum price is a lower bound on every listed price. -/
theorem minPriceOf_le (allocs : List Alloc) :
    ∀ a ∈ allocs, minPriceOf allocs ≤ a.category.price := by
  induction allocs with
  | nil => simp
  | cons a l ih =>
    intro b hb
    simp only [minPriceOf, List.map_cons, List.foldr_cons]
    rcases List.mem_cons.mp hb with rfl | h1
    · exact min_le_left _ _
    · exact le_trans (min_le_right _ _) (ih b h1)

/-- Every allocation pushed by the first pass has a positive price: the pass
skips the rest. -/
theorem pnPhase1_price_pos (u : Category → ℚ → ℚ) (l : List Category) :
    ∀ st : GreedyState, (∀ a ∈ st.allocs, 0 < a.category.price) →
      ∀ a ∈ (l.foldl (pnPhase1Step u) st).allocs, 0 < a.category.price := by
  induction l with
  | nil => intro st h; simpa using h
  | cons c l ih =>
    intro st h
    simp only [List.foldl_cons]
    refine ih _ ?_
    unfold pnPhase1Step
    by_cases hc : c.price ≤ 0
    · rw [if_pos hc]; exact h
    · rw [if_neg hc]
      intro a ha
      rcases List.mem_append.mp ha with h1 | h2
      · exact h a h1
      · have : a.category = c := by
          simp only [List.mem_singleton] at h2
          rw [h2]
        rw [this]
        exact lt_of_not_le hc

/-- A budget bounded by `⌈rem / p0⌉.toNat` many `p0`-sized purchases. -/
theorem rem_le_fuel_mul (rem p0 : ℚ) (hp : 0 < p0) :
    rem ≤ ((⌈rem / p0⌉.toNat : ℕ) : ℚ) * p0 := by
  have h1 : rem / p0 ≤ (⌈rem / p0⌉ : ℚ) := Int.le_ceil _
  have h2 : (⌈rem / p0⌉ : ℚ) ≤ ((⌈rem / p0⌉.toNat : ℕ) : ℚ) := by
    exact_mod_cast Int.self_le_toNat _
  have h3 : rem / p0 * p0 ≤ ((⌈rem / p0⌉.toNat : ℕ) : ℚ) * p0 :=
    mul_le_mul_of_nonneg_right (le_trans h1 h2) (le_of_lt hp)
  rwa [div_mul_cancel₀ rem (ne_of_gt hp)] at h3

/-- The Priority-Necessity run always completes: its surplus loop only sees
positive prices, so `pnFuel` iterations suffice. -/
theorem priorityNecessityRun_isSome (cats : List Category) (budget : ℚ) :
    (priorityNecessityRun cats budget).isSome := by
  have hpos : ∀ a ∈ (pnPhase1 calculateUtilityQ (sortCats cats) budget).allocs,
      0 < a.category.price :=
    pnPhase1_price_pos calculateUtilityQ (sortCats cats) ⟨[], budget, 0⟩ (by simp)
  have hmin := minPriceOf_pos _ hpos
  have hsome := phase2_isSome calculateUtilityQ
    (minPriceOf (pnPhase1 calculateUtilityQ (sortCats cats) budget).allocs)
    (⌈(pnPhase1 calculateUtilityQ (sortCats cats) budget).rem /
        minPriceOf (pnPhase1 calculateUtilityQ (sortCats cats) budget).allocs⌉.toNat)
    (pnPhase1 calculateUtilityQ (sortCats cats) budget)
    (minPriceOf_le _)
    (rem_le_fuel_mul _ _ hmin)
  simp only [priorityNecessityRun]
  rcases hs2 : phase2 calculateUtilityQ
      (pnFuel (pnPhase1 calculateUtilityQ (sortCats cats) budget))
      (pnPhase1 calculateUtilityQ (sortCats cats) budget) with _ | st2
  · rw [pnFuel] at hs2
    rw [hs2] at hsome
    simp at hsome
  · simp

/-- The total Priority-Necessity algorithm: the run, which always returns a
result. -/
def priorityNecessityCalculate (cats : List Category) (budget : ℚ) :
    AllocationResult :=
  (priorityNecessityRun cats budget).get (priorityNecessityRun_isSome cats budget)

/-- Preservation of a state property through the surplus loop: any property
stable under buying one affordable unit holds in the loop's final state. -/
theorem phase2_invariant (u : Category → ℚ → ℚ) (P : GreedyState → Prop)
    (hstep : ∀ st i a, st.allocs[i]? = some a → a.category.price ≤ st.rem →
      P st → P (buyAt u st i)) :
    ∀ (fuel : ℕ) (st st' : GreedyState),
      phase2 u fuel st = some st' → P st → P st' := by
  intro fuel
  induction fuel with
  | zero => intro st st' h; simp [phase2] at h
  | succ m ih =>
    intro st st' h hP
    unfold phase2 at h
    by_cases h0 : 0 < st.rem
    · rw [if_pos h0] at h
      rcases hfb : findBest u st.rem st.allocs with ⟨best, idx⟩
      rw [hfb] at h
      cases idx with
      | none =>
        simp only [Option.some.injEq] at h
        rwa [← h]
      | some i =>
        simp only at h
        by_cases hgt : best.gt (JsVal.rat 0)
        · rw [if_pos hgt] at h
          obtain ⟨a, hgi, hle⟩ := findBest_sound u st.rem st.allocs i (by rw [hfb])
          exact ih _ _ h (hstep st i a hgi hle hP)
        · rw [if_neg hgt] at h
          simp only [Option.some.injEq] at h
          rwa [← h]
    · rw [if_neg h0] at h
      simp only [Option.some.injEq] at h
      rwa [← h]

/-- Preservation of a property of `(quantity, spent, rem)` through the
basic-needs loop. -/
theorem needsLoop_inv (price b : ℚ) (P : ℚ → ℚ → ℚ → Prop)
    (hstep : ∀ q s rem, q < b → price ≤ rem →
      P q s rem → P (q + 1) (s + price) (rem - price)) :
    ∀ (fuel : ℕ) (q s rem : ℚ), P q s rem →
      P (needsLoop price b fuel q s rem).1
        (needsLoop price b fuel q s rem).2.1
        (needsLoop price b fuel q s rem).2.2 := by
  intro fuel
  induction fuel with
  | zero => intro q s rem h; simpa [needsLoop] using h
  | succ m ih =>
    intro q s rem h
    unfold needsLoop
    by_cases hc : q < b ∧ price ≤ rem
    · rw [if_pos hc]
      exact ih _ _ _ (hstep q s rem hc.1 hc.2 h)
    · rw [if_neg hc]
      exact h

/-- Preservation of a state property through the first pass. -/
theorem pnPhase1_fold_inv (u : Category → ℚ → ℚ) (P : GreedyState → Prop)
    (hstep : ∀ st c, P st → P (pnPhase1Step u st c)) :
    ∀ (l : List Category) (st : GreedyState),
      P st → P (l.foldl (pnPhase1Step u) st) := by
  intro l
  induction l with
  | nil => intro st h; simpa using h
  | cons c l ih => intro st h; exact ih _ (hstep st c h)

/-- Rewriting the total Priority-Necessity algorithm as its completed run. -/
theorem priorityNecessityCalculate_eq (cats : List Category) (budget : ℚ) :
    ∃ st2 : GreedyState,
      phase2 calculateUtilityQ
          (pnFuel (pnPhase1 calculateUtilityQ (sortCats cats) budget))
          (pnPhase1 calculateUtilityQ (sortCats cats) budget) = some st2 ∧
      priorityNecessityCalculate cats budget = pnMkResult budget st2 := by
  rcases hs2 : phase2 calculateUtilityQ
      (pnFuel (pnPhase1 calculateUtilityQ (sortCats cats) budget))
      (pnPhase1 calculateUtilityQ (sortCats cats) budget) with _ | st2
  · have := priorityNecessityRun_isSome cats budget
    rw [priorityNecessityRun] at this
    simp only [hs2] at this
    simp at this
  · refine ⟨st2, rfl, ?_⟩
    have hrun : priorityNecessityRun cats budget = some (pnMkResult budget st2) := by
      rw [priorityNecessityRun]
      simp only [hs2]
    simp [priorityNecessityCalculate, hrun]

/-- The remaining budget stays non-negative through the first pass. -/
theorem pnPhase1_rem_nonneg (cats : List Category) (budget : ℚ) (hb : 0 ≤ budget) :
    0 ≤ (pnPhase1 calculateUtilityQ (sortCats cats) budget).rem := by
  rw [pnPhase1]
  refine pnPhase1_fold_inv calculateUtilityQ (fun st => 0 ≤ st.rem) ?_ _ _ hb
  intro st c h
  unfold pnPhase1Step
  by_cases hc : c.price ≤ 0
  · rw [if_pos hc]; exact h
  · rw [if_neg hc]
    exact needsLoop_inv c.price c.basicNeedAmount (fun _ _ rem => 0 ≤ rem)
      (fun q s rem _ hle h2 => by linarith) _ 0 0 st.rem h

/-- C2 (amended): the Priority-Necessity algorithm conserves the budget — for
every category list and every non-negative budget, `totalSpent ≤ budget + 1e-6`
(indeed `totalSpent ≤ budget` exactly). -/
theorem C2_amended_conservation_priorityNecessity (cats : List Category)
    (budget : ℚ) (hb : 0 ≤ budget) :
    (priorityNecessityCalculate cats budget).totalSpent ≤ budget + 1 / 1000000 := by
  obtain ⟨st2, hs2, heq⟩ := priorityNecessityCalculate_eq cats budget
  have h1 : 0 ≤ (pnPhase1 calculateUtilityQ (sortCats cats) budget).rem :=
    pnPhase1_rem_nonneg cats budget hb
  have h2 : 0 ≤ st2.rem :=
    phase2_invariant calculateUtilityQ (fun st => 0 ≤ st.rem)
      (fun st i a hgi hle h => by
        show 0 ≤ (buyAt calculateUtilityQ st i).rem
        rw [buyAt_rem calculateUtilityQ st i a hgi]
        simp only at h
        linarith) _ _ _ hs2 h1
  rw [heq]
  show budget - st2.rem ≤ budget + 1 / 1000000
  linarith

/-- Witness for the amended C2 at a concrete input. -/
theorem C2_amended_conservation_witness :
    (0:ℚ) ≤ 7 ∧
      (priorityNecessityCalculate [⟨"A", 2, 1, 3, 1/2, 9⟩] 7).totalSpent ≤
        7 + 1 / 1000000 :=
  ⟨by norm_num,
    C2_amended_conservation_priorityNecessity [⟨"A", 2, 1, 3, 1/2, 9⟩] 7 (by norm_num)⟩

/-- C2 (counterexample): `SimpleProportionsAlgorithm` violates conservation —
with one category of price 1, utility factor 2 and basic need 1 and a budget
of 1 it reports `totalSpent = 2 > 1 + 1e-6`. -/
theorem C2_counterexample_simpleProportions :
    ¬ (simpleProportionsCalculate [⟨"A", 1, 2, 1, 1, 1⟩] 1).totalSpent ≤
        1 + 1 / 1000000 := by
  norm_num [simpleProportionsCalculate]

/-- Stable insertion permutes the extended list. -/
theorem insertB_perm {α : Type} (le : α → α → Bool) (a : α) :
    ∀ l : List α, (insertB le a l).Perm (a :: l) := by
  intro l
  induction l with
  | nil => simp [insertB]
  | cons b l ih =>
    unfold insertB
    by_cases hc : le a b
    · rw [if_pos hc]
    · rw [if_neg hc]
      exact (ih.cons b).trans (List.Perm.swap a b l)

/-- The modelled stable sort permutes its input. -/
theorem sortB_perm {α : Type} (le : α → α → Bool) :
    ∀ l : List α, (sortB le l).Perm l := by
  intro l
  induction l with
  | nil => simp [sortB]
  | cons a l ih =>
    exact (insertB_perm le a (sortB le l)).trans (ih.cons a)

/-- Replacing an entry by one with the same category leaves the category list
unchanged. -/
theorem map_category_set :
    ∀ (l : List Alloc) (i : ℕ) (a b : Alloc),
      l[i]? = some a → b.category = a.category →
      ((l.set i b).map fun x => x.category) = l.map fun x => x.category
  | [], i, a, b, h, _ => by simp at h
  | x :: l, 0, a, b, h, hc => by
    simp only [List.getElem?_cons_zero, Option.some.injEq] at h
    subst h
    simp [hc]
  | x :: l, i + 1, a, b, h, hc => by
    simp only [List.getElem?_cons_succ] at h
    simp [map_category_set l i a b h hc]

/-- Buying a unit does not change which categories are allocated. -/
theorem buyAt_map_category (u : Category → ℚ → ℚ) (st : GreedyState) (i : ℕ) :
    ((buyAt u st i).allocs.map fun a => a.category) =
      st.allocs.map fun a => a.category := by
  unfold buyAt
  cases hgi : st.allocs[i]? with
  | none => rfl
  | some a => exact map_category_set st.allocs i a _ hgi rfl

/-- The first pass allocates exactly the positive-price categories, in
order. -/
theorem pnPhase1_fold_map (u : Category → ℚ → ℚ) :
    ∀ (l : List Category) (st : GreedyState),
      ((l.foldl (pnPhase1Step u) st).allocs.map fun a => a.category) =
        (st.allocs.map fun a => a.category) ++
          l.filter fun c => !decide (c.price ≤ 0) := by
  intro l
  induction l with
  | nil => intro st; simp
  | cons c l ih =>
    intro st
    simp only [List.foldl_cons, List.filter_cons]
    by_cases hc : c.price ≤ 0
    · have hstep : pnPhase1Step u st c = st := by
        unfold pnPhase1Step; rw [if_pos hc]
      have hfil : (!decide (c.price ≤ 0)) = false := by simp [hc]
      rw [hstep, hfil, ih]
      simp
    · have hfil : (!decide (c.price ≤ 0)) = true := by simp [hc]
      rw [hfil, ih]
      have hstep : (pnPhase1Step u st c).allocs.map (fun a => a.category) =
          (st.allocs.map fun a => a.category) ++ [c] := by
        unfold pnPhase1Step
        rw [if_neg hc]
        simp
      rw [hstep, List.append_assoc]
      simp

/-- C3 (amended): for every input and budget, the Priority-Necessity
allocations contain exactly one entry per input category of positive price —
categories with `price ≤ 0` are dropped, all others appear exactly once. -/
theorem C3_amended_coverage_priorityNecessity (cats : List Category) (budget : ℚ) :
    ((priorityNecessityCalculate cats budget).allocations.map fun a => a.category).Perm
      (cats.filter fun c => !decide (c.price ≤ 0)) := by
  obtain ⟨st2, hs2, heq⟩ := priorityNecessityCalculate_eq cats budget
  have hmap : (st2.allocs.map fun a => a.category) =
      (sortCats cats).filter fun c => !decide (c.price ≤ 0) := by
    have h1 : ((pnPhase1 calculateUtilityQ (sortCats cats) budget).allocs.map
        fun a => a.category) =
        (sortCats cats).filter (fun c => !decide (c.price ≤ 0)) := by
      rw [pnPhase1, pnPhase1_fold_map]
      simp
    exact phase2_invariant calculateUtilityQ
      (fun st => (st.allocs.map fun a => a.category) =
        (sortCats cats).filter fun c => !decide (c.price ≤ 0))
      (fun st i a hgi hle h => by
        show ((buyAt calculateUtilityQ st i).allocs.map fun a => a.category) = _
        rw [buyAt_map_category]
        exact h) _ _ _ hs2 h1
  rw [heq]
  show (st2.allocs.map fun a => a.category).Perm _
  rw [hmap]
  exact (sortB_perm _ cats).filter _

/-- C3 (counterexample): a free category is dropped entirely — on the single
free category below the Priority-Necessity result has no allocations at all,
so `len(allocations) ≠ len(categories)`. -/
theorem C3_counterexample_free_category_dropped :
    ¬ ((priorityNecessityCalculate [⟨"Free", 0, 1, 10, 1/2, 5⟩] 1).allocations.length
        = ([⟨"Free", 0, 1, 10, (1:ℚ)/2, 5⟩] : List Category).length) := by
  norm_num [priorityNecessityCalculate, priorityNecessityRun, sortCats, sortB,
    insertB, pnPhase1, pnPhase1Step, pnFuel, minPriceOf, phase2, findBest,
    findBestAux, pnMkResult, unmetNeedsOf]

/-- Sum of utilities after replacing one entry. -/
theorem map_utility_sum_set :
    ∀ (l : List Alloc) (i : ℕ) (a b : Alloc), l[i]? = some a →
      ((l.set i b).map fun x => x.utility).sum =
        (l.map fun x => x.utility).sum - a.utility + b.utility
  | [], i, a, b, h => by simp at h
  | x :: l, 0, a, b, h => by
    simp only [List.getElem?_cons_zero, Option.some.injEq] at h
    subst h
    simp
    ring
  | x :: l, i + 1, a, b, h => by
    simp only [List.getElem?_cons_succ] at h
    simp only [List.set_cons_succ, List.map_cons, List.sum_cons,
      map_utility_sum_set l i a b h]
    ring

/-- Buying a unit keeps the running total utility equal to the sum of the
allocations' utilities. -/
theorem buyAt_totalUtility (u : Category → ℚ → ℚ) (st : GreedyState) (i : ℕ)
    (hP : st.totalUtility = (st.allocs.map fun a => a.utility).sum) :
    (buyAt u st i).totalUtility =
      ((buyAt u st i).allocs.map fun a => a.utility).sum := by
  unfold buyAt
  cases hgi : st.allocs[i]? with
  | none => simpa using hP
  | some a =>
    dsimp only
    rw [map_utility_sum_set st.allocs i a _ hgi, ← hP]
    ring

/-- C7 (amended): the Priority-Necessity algorithm's `totalUtility` equals the
sum of the returned allocations' `utility` fields exactly. -/
theorem C7_amended_utility_consistency_priorityNecessity
    (cats : List Category) (budget : ℚ) :
    (priorityNecessityCalculate cats budget).totalUtility =
      ((priorityNecessityCalculate cats budget).allocations.map
        fun a => a.utility).sum := by
  obtain ⟨st2, hs2, heq⟩ := priorityNecessityCalculate_eq cats budget
  have h1 : (pnPhase1 calculateUtilityQ (sortCats cats) budget).totalUtility =
      ((pnPhase1 calculateUtilityQ (sortCats cats) budget).allocs.map
        fun a => a.utility).sum := by
    rw [pnPhase1]
    refine pnPhase1_fold_inv calculateUtilityQ
      (fun st => st.totalUtility = (st.allocs.map fun a => a.utility).sum) ?_ _ _
      (by simp)
    intro st c h
    unfold pnPhase1Step
    by_cases hc : c.price ≤ 0
    · rw [if_pos hc]; exact h
    · rw [if_neg hc]
      simp only at h ⊢
      rw [h]
      simp
  have h2 : st2.totalUtility = (st2.allocs.map fun a => a.utility).sum :=
    phase2_invariant calculateUtilityQ
      (fun st => st.totalUtility = (st.allocs.map fun a => a.utility).sum)
      (fun st i a hgi hle h => buyAt_totalUtility calculateUtilityQ st i h)
      _ _ _ hs2 h1
  rw [heq]
  exact h2

/-- C7 (counterexample): `BlurAlgorithm` breaks utility consistency — with
one category of price 1, utility factor 1, basic need 2 and a budget of 2 it
reports `totalUtility = 4` while the single allocation's utility is 2. -/
theorem C7_counterexample_blur :
    ¬ |(blurCalculate [⟨"A", 1, 1, 2, 1, 1⟩] 2).totalUtility -
        ((blurCalculate [⟨"A", 1, 1, 2, 1, 1⟩] 2).allocations.map
          fun a => a.utility).sum| ≤ 1 / 1000000 := by
  norm_num [blurCalculate, sortB, insertB]

/-- C10: under every input whose categories all have positive price and every
non-negative budget, each Priority-Necessity allocation's quantity is a
non-negative integer number of whole units and its `spent` equals
`quantity * price` exactly. -/
theorem C10_priorityNecessity_whole_units (cats : List Category) (budget : ℚ)
    (hpos : ∀ c ∈ cats, 0 < c.price) (hb : 0 ≤ budget) :
    ∀ a ∈ (priorityNecessityCalculate cats budget).allocations,
      (∃ n : ℕ, a.quantity = (n : ℚ)) ∧
        a.spent = a.quantity * a.category.price := by
  obtain ⟨st2, hs2, heq⟩ := priorityNecessityCalculate_eq cats budget
  have h1 : ∀ a ∈ (pnPhase1 calculateUtilityQ (sortCats cats) budget).allocs,
      (∃ n : ℕ, a.quantity = (n : ℚ)) ∧
        a.spent = a.quantity * a.category.price := by
    rw [pnPhase1]
    refine pnPhase1_fold_inv calculateUtilityQ
      (fun st => ∀ a ∈ st.allocs,
        (∃ n : ℕ, a.quantity = (n : ℚ)) ∧
          a.spent = a.quantity * a.category.price) ?_ _ _ (by simp)
    intro st c h
    unfold pnPhase1Step
    by_cases hc : c.price ≤ 0
    · rw [if_pos hc]; exact h
    · rw [if_neg hc]
      intro a ha
      rcases List.mem_append.mp ha with hmem | hnew
      · exact h a hmem
      · simp only [List.mem_singleton] at hnew
        subst hnew
        have := needsLoop_inv c.price c.basicNeedAmount
          (fun q s _ => (∃ n : ℕ, q = (n : ℚ)) ∧ s = q * c.price)
          (fun q s rem _ _ hqs => by
            obtain ⟨⟨n, hn⟩, hs⟩ := hqs
            refine ⟨⟨n + 1, by push_cast [hn]; ring⟩, ?_⟩
            rw [hs, hn]
            ring)
          (⌈c.basicNeedAmount⌉.toNat) 0 0 st.rem ⟨⟨0, by norm_num⟩, by norm_num⟩
        exact this
  have h2 : ∀ a ∈ st2.allocs,
      (∃ n : ℕ, a.quantity = (n : ℚ)) ∧
        a.spent = a.quantity * a.category.price := by
    refine phase2_invariant calculateUtilityQ
      (fun st => ∀ a ∈ st.allocs,
        (∃ n : ℕ, a.quantity = (n : ℚ)) ∧
          a.spent = a.quantity * a.category.price)
      ?_ _ _ _ hs2 h1
    intro st i a hgi hle h
    intro b hb2
    show (∃ n : ℕ, b.quantity = (n : ℚ)) ∧ b.spent = b.quantity * b.category.price
    have hmem : a ∈ st.allocs := mem_of_getElem_eq hgi
    revert hb2
    unfold buyAt
    rw [hgi]
    intro hb2
    dsimp only at hb2
    rcases List.mem_or_eq_of_mem_set hb2 with hold | rfl
    · exact h b hold
    · obtain ⟨⟨n, hn⟩, hs⟩ := h a hmem
      refine ⟨⟨n + 1, by push_cast [hn]; ring⟩, ?_⟩
      show a.spent + a.category.price = (a.quantity + 1) * a.category.price
      rw [hs]
      ring
  rw [heq]
  exact h2

/-- Witness for C10 at a concrete input. -/
theorem C10_priorityNecessity_whole_units_witness :
    (∀ c ∈ ([⟨"A", 2, 1, 3, 1/2, 9⟩] : List Category), 0 < c.price) ∧ (0:ℚ) ≤ 7 ∧
      ∀ a ∈ (priorityNecessityCalculate [⟨"A", 2, 1, 3, 1/2, 9⟩] 7).allocations,
        (∃ n : ℕ, a.quantity = (n : ℚ)) ∧
          a.spent = a.quantity * a.category.price :=
  ⟨by intro c hc; simp only [List.mem_singleton] at hc; subst hc; norm_num,
    by norm_num,
    C10_priorityNecessity_whole_units [⟨"A", 2, 1, 3, 1/2, 9⟩] 7
      (by intro c hc; simp only [List.mem_singleton] at hc; subst hc; norm_num)
      (by norm_num)⟩

/-- The allocations field of the assembled Priority-Necessity result. -/
theorem pnMkResult_allocations (budget : ℚ) (st : GreedyState) :
    (pnMkResult budget st).allocations = st.allocs := rfl

/-- The message field of the assembled Priority-Necessity result. -/
theorem pnMkResult_message (budget : ℚ) (st : GreedyState) :
    (pnMkResult budget st).message =
      if 0 < (unmetNeedsOf st.allocs).length then
        "Basic needs not fully met for: " ++
          String.intercalate ", " ((unmetNeedsOf st.allocs).map fun a => a.category.name) ++
          ". Budget insufficient."
      else if budget - st.rem < budget then
        "Budget not fully spent. Remaining: " ++ toFixed2 st.rem
      else "" := rfl

/-- A non-empty unmet-needs filter is exactly the existence of an unmet
high-necessity allocation. -/
theorem unmet_length_pos_iff (l : List Alloc) :
    0 < (unmetNeedsOf l).length ↔
      ∃ a ∈ l, a.quantity < a.category.basicNeedAmount ∧
        3 < a.category.necessityLevel := by
  rw [List.length_pos_iff_exists_mem]
  constructor
  · rintro ⟨a, ha⟩
    rw [unmetNeedsOf, List.mem_filter] at ha
    refine ⟨a, ha.1, ?_⟩
    have := ha.2
    simp only [Bool.and_eq_true, decide_eq_true_eq] at this
    exact this
  · rintro ⟨a, ha, h1, h2⟩
    refine ⟨a, ?_⟩
    rw [unmetNeedsOf, List.mem_filter]
    exact ⟨ha, by simp [h1, h2]⟩

/-- The leftover-budget message never coincides with the unmet-needs message:
they differ at their second character. -/
theorem budget_msg_ne_unmet_msg (x y : String) :
    "Budget not fully spent. Remaining: " ++ x ≠
      "Basic needs not fully met for: " ++ y := by
  intro h
  have h2 := congrArg String.data h
  rw [String.data_append, String.data_append] at h2
  have h3 : "Budget not fully spent. Remaining: ".data =
      'B' :: 'u' :: "dget not fully spent. Remaining: ".data := rfl
  have h4 : "Basic needs not fully met for: ".data =
      'B' :: 'a' :: "sic needs not fully met for: ".data := rfl
  rw [h3, h4] at h2
  simp at h2

/-- The empty message never coincides with the unmet-needs message. -/
theorem empty_msg_ne_unmet_msg (y : String) :
    "" ≠ "Basic needs not fully met for: " ++ y := by
  intro h
  have h2 := congrArg String.data h
  rw [String.data_append] at h2
  have h3 : "".data = ([] : List Char) := rfl
  have h4 : "Basic needs not fully met for: ".data =
      'B' :: 'a' :: "sic needs not fully met for: ".data := rfl
  rw [h3, h4] at h2
  simp at h2

/-- C9: the Priority-Necessity result carries the message
`Basic needs not fully met for: <names>. Budget insufficient.` naming exactly
the affected categories if and only if some returned allocation's quantity is
below its category's basic need with necessity level above 3 (and the
computation always completes with a result: `priorityNecessityCalculate` is
total by `priorityNecessityRun_isSome`). -/
theorem C9_priorityNecessity_unmet_needs_message (cats : List Category)
    (budget : ℚ) :
    ((priorityNecessityCalculate cats budget).message =
      "Basic needs not fully met for: " ++
        String.intercalate ", "
          ((unmetNeedsOf (priorityNecessityCalculate cats budget).allocations).map
            fun a => a.category.name) ++ ". Budget insufficient.") ↔
      ∃ a ∈ (priorityNecessityCalculate cats budget).allocations,
        a.quantity < a.category.basicNeedAmount ∧
          3 < a.category.necessityLevel := by
  obtain ⟨st2, hs2, heq⟩ := priorityNecessityCalculate_eq cats budget
  rw [heq, pnMkResult_allocations, pnMkResult_message]
  by_cases hu : 0 < (unmetNeedsOf st2.allocs).length
  · rw [if_pos hu]
    simp only [(unmet_length_pos_iff st2.allocs).mp hu, iff_true]
  · rw [if_neg hu]
    constructor
    · intro hmsg
      exfalso
      by_cases hsp : budget - st2.rem < budget
      · rw [if_pos hsp] at hmsg
        exact budget_msg_ne_unmet_msg _ _ hmsg
      · rw [if_neg hsp] at hmsg
        exact empty_msg_ne_unmet_msg _ hmsg
    · intro hex
      exact absurd ((unmet_length_pos_iff st2.allocs).mpr hex) hu

/-- C4: on categories A (necessity 10, basic need 5, price 1) and B
(necessity 1, price 1, any positive utility factor however large) with budget
5, the Priority-Necessity algorithm gives all 5 units to A and none to B. -/
theorem C4_necessity_dominance (f : ℚ) (hf : 0 < f) :
    (priorityNecessityCalculate
        [⟨"A", 1, 1, 5, 1/2, 10⟩, ⟨"B", 1, f, 5, 1/2, 1⟩] 5).allocations.map
      (fun a => (a.category.name, a.quantity)) = [("A", 5), ("B", 0)] := by
  norm_num [priorityNecessityCalculate, priorityNecessityRun, sortCats, sortB,
    insertB, jsCompareCats, pnPhase1, pnPhase1Step, needsLoop, pnFuel,
    minPriceOf, phase2, findBest, findBestAux, pnMkResult, unmetNeedsOf]

/-- Witness for C4 at a concrete large utility factor. -/
theorem C4_necessity_dominance_witness :
    (0:ℚ) < 1000000 ∧
      (priorityNecessityCalculate
          [⟨"A", 1, 1, 5, 1/2, 10⟩, ⟨"B", 1, 1000000, 5, 1/2, 1⟩] 5).allocations.map
        (fun a => (a.category.name, a.quantity)) = [("A", 5), ("B", 0)] :=
  ⟨by norm_num, C4_necessity_dominance 1000000 (by norm_num)⟩

/-- C8 (counterexample): monotone budget response fails for the
Priority-Necessity algorithm.  With A = (price 10, basic need 5, necessity
10) and B = (price 9, basic need 1, necessity 9), raising the budget from 19
to 20 lets A afford a second unit first, leaving nothing for B: B's quantity
drops from 1 to 0 although B's necessity level exceeds 5. -/
theorem C8_counterexample_nonmonotone :
    (19:ℚ) ≤ 20 ∧
    (5:ℚ) < (⟨"B", 9, 1, 1, 1/2, 9⟩ : Category).necessityLevel ∧
    (priorityNecessityCalculate
        [⟨"A", 10, 1, 5, 1/2, 10⟩, ⟨"B", 9, 1, 1, 1/2, 9⟩] 19).allocations.map
      (fun a => (a.category.name, a.quantity)) = [("A", 1), ("B", 1)] ∧
    (priorityNecessityCalculate
        [⟨"A", 10, 1, 5, 1/2, 10⟩, ⟨"B", 9, 1, 1, 1/2, 9⟩] 20).allocations.map
      (fun a => (a.category.name, a.quantity)) = [("A", 2), ("B", 0)] ∧
    ¬ ((1:ℚ) ≤ 0) := by
  refine ⟨by norm_num, by norm_num, ?_, ?_, by norm_num⟩
  · norm_num [priorityNecessityCalculate, priorityNecessityRun, sortCats, sortB,
      insertB, jsCompareCats, pnPhase1, pnPhase1Step, needsLoop, pnFuel,
      minPriceOf, phase2, findBest, findBestAux, pnMkResult, unmetNeedsOf]
  · norm_num [priorityNecessityCalculate, priorityNecessityRun, sortCats, sortB,
      insertB, jsCompareCats, pnPhase1, pnPhase1Step, needsLoop, pnFuel,
      minPriceOf, phase2, findBest, findBestAux, pnMkResult, unmetNeedsOf]

/-- C6 (counterexample): under the Priority-Necessity algorithm a free
category (price 0, basic need 10, utility factor 1) receives no allocation at
all — the category is skipped, so no entry with `quantity = 10, spent = 0`
(nor any entry) exists. -/
theorem C6_counterexample_priorityNecessity_drops_free :
    ¬ ∃ a ∈ (priorityNecessityCalculate [⟨"Free", 0, 1, 10, 1/2, 5⟩] 1).allocations,
        a.quantity = 10 ∧ a.spent = 0 := by
  norm_num [priorityNecessityCalculate, priorityNecessityRun, sortCats, sortB,
    insertB, pnPhase1, pnPhase1Step, pnFuel, minPriceOf, phase2, findBest,
    findBestAux, pnMkResult, unmetNeedsOf]

/-- The allocations field of the optimizer's assembled result. -/
theorem gdFinalize_allocations (allocations : List Alloc) (budget rem : ℚ)
    (iterations : ℕ) :
    (gdFinalize allocations budget rem iterations).allocations = allocations := rfl

/-- C6 (amended): the gradient-descent optimizer grants every free
positive-utility category its basic need amount at zero spend, for every
input list and budget (while the Priority-Necessity algorithm drops such
categories entirely — see the counterexample). -/
theorem C6_amended_free_good_gradientDescent (cats : List Category)
    (budget : ℚ) (c : Category) (hc : c ∈ cats) (hp : c.price = 0)
    (hu : 0 < c.utilityFactor) (hb : 0 < c.basicNeedAmount) :
    ∃ a ∈ (gdCalculate cats budget).allocations,
      a.category = c ∧ a.quantity = c.basicNeedAmount ∧ a.spent = 0 := by
  have hprep : (if (⟨c, 0, 0, 0⟩ : Alloc).category.price = 0 ∧
      0 < (⟨c, 0, 0, 0⟩ : Alloc).category.utilityFactor ∧
      0 < (⟨c, 0, 0, 0⟩ : Alloc).category.basicNeedAmount then
        (⟨(⟨c, 0, 0, 0⟩ : Alloc).category,
          (⟨c, 0, 0, 0⟩ : Alloc).category.basicNeedAmount,
          (⟨c, 0, 0, 0⟩ : Alloc).utility, 0⟩ : Alloc)
      else (⟨c, 0, 0, 0⟩ : Alloc)) = (⟨c, c.basicNeedAmount, 0, 0⟩ : Alloc) := by
    rw [if_pos ⟨hp, hu, hb⟩]
  have hmem1 : (⟨c, c.basicNeedAmount, 0, 0⟩ : Alloc) ∈
      (cats.map fun category => (⟨category, 0, 0, 0⟩ : Alloc)).map fun a =>
        if a.category.price = 0 ∧ 0 < a.category.utilityFactor ∧
            0 < a.category.basicNeedAmount then
          (⟨a.category, a.category.basicNeedAmount, a.utility, 0⟩ : Alloc)
        else a := by
    rw [← hprep]
    exact List.mem_map_of_mem _ (List.mem_map_of_mem _ hc)
  have husef : gdUseful c = false := by
    simp [gdUseful, hp]
  rw [gdCalculate]
  by_cases hcase : (((cats.map fun category => (⟨category, 0, 0, 0⟩ : Alloc)).map
      fun a =>
        if a.category.price = 0 ∧ 0 < a.category.utilityFactor ∧
            0 < a.category.basicNeedAmount then
          (⟨a.category, a.category.basicNeedAmount, a.utility, 0⟩ : Alloc)
        else a).filter fun a => gdUseful a.category).length = 0 ∨ budget ≤ 0
  · rw [if_pos hcase, gdFinalize_allocations]
    exact ⟨⟨c, c.basicNeedAmount, 0, 0⟩, hmem1, rfl, rfl, rfl⟩
  · rw [if_neg hcase, gdFinalize_allocations]
    refine ⟨⟨c, c.basicNeedAmount, 0, 0⟩, ?_, rfl, rfl, rfl⟩
    have hupd : (if gdUseful (⟨c, c.basicNeedAmount, 0, 0⟩ : Alloc).category then
        (⟨(⟨c, c.basicNeedAmount, 0, 0⟩ : Alloc).category,
          gdSolveForQuantity (⟨c, c.basicNeedAmount, 0, 0⟩ : Alloc).category
            (gdSearch ((cats.map fun category => (⟨category, 0, 0, 0⟩ : Alloc)).map
              (fun a =>
                if a.category.price = 0 ∧ 0 < a.category.utilityFactor ∧
                    0 < a.category.basicNeedAmount then
                  (⟨a.category, a.category.basicNeedAmount, a.utility, 0⟩ : Alloc)
                else a) |>.filter fun a => gdUseful a.category) budget 0 0 0),
          0, 0⟩ : Alloc)
      else (⟨c, c.basicNeedAmount, 0, 0⟩ : Alloc)) = (⟨c, c.basicNeedAmount, 0, 0⟩ : Alloc) := by
      rw [if_neg]
      simp [husef]
    exact List.mem_map.mpr ⟨⟨c, c.basicNeedAmount, 0, 0⟩, hmem1, by simp [husef]⟩

/-- The Balanced-Approach basic-needs pass preserves any property of the
allocated categories: it only replaces entries keeping their category. -/
theorem baPhase1_fold_pred (u : Category → ℚ → ℚ) (P : Category → Prop) :
    ∀ (idxs : List ℕ) (acc : List Alloc × ℚ × ℚ),
      (∀ a ∈ acc.1, P a.category) →
      ∀ a ∈ (idxs.foldl (baPhase1Step u) acc).1, P a.category := by
  intro idxs
  induction idxs with
  | nil => intro acc h; simpa using h
  | cons i idxs ih =>
    intro acc h
    simp only [List.foldl_cons]
    refine ih _ ?_
    intro b hb
    rcases acc with ⟨allocs, remBasic, totalU⟩
    unfold baPhase1Step at hb
    dsimp only at hb
    rcases hgi : allocs[i]? with _ | a
    · rw [hgi] at hb
      exact h b hb
    · rw [hgi] at hb
      dsimp only at hb
      split_ifs at hb with hp hunits
      · exact h b hb
      · rcases List.mem_or_eq_of_mem_set hb with hold | rfl
        · exact h b hold
        · exact h a (mem_of_getElem_eq hgi)
      · exact h b hb

/-- C5 (amended): with every price strictly positive (budget and the other
fields in their documented domains), the unit-buying loops of both
`PureUtilityAlgorithm.calculate` and `BalancedApproachAlgorithm.calculate`
finish after finitely many iterations — some fuel completes each run. -/
theorem C5_amended_termination (cats : List Category) (budget : ℚ)
    (hpos : ∀ c ∈ cats, 0 < c.price) (hb : 0 ≤ budget)
    (hdom : ∀ c ∈ cats, 0 < c.utilityFactor ∧ 0 ≤ c.basicNeedAmount ∧
      0 ≤ c.diminishingFactor ∧ c.diminishingFactor ≤ 1 ∧
      1 ≤ c.necessityLevel ∧ c.necessityLevel ≤ 10) :
    (∃ fuel, (pureUtilityRun fuel cats budget).isSome) ∧
      ∃ fuel, (balancedRun fuel cats budget).isSome := by
  constructor
  · have hpred : ∀ a ∈ cats.map fun c => (⟨c, 0, 0, 0⟩ : Alloc),
        0 < a.category.price := by
      intro a ha
      obtain ⟨c, hc, rfl⟩ := List.mem_map.mp ha
      exact hpos c hc
    have hmin := minPriceOf_pos _ hpred
    refine ⟨⌈budget / minPriceOf (cats.map fun c => (⟨c, 0, 0, 0⟩ : Alloc))⌉.toNat + 1, ?_⟩
    have hsome := phase2_isSome calculateUtilityQ
      (minPriceOf (cats.map fun c => (⟨c, 0, 0, 0⟩ : Alloc)))
      (⌈budget / minPriceOf (cats.map fun c => (⟨c, 0, 0, 0⟩ : Alloc))⌉.toNat)
      ⟨cats.map fun c => (⟨c, 0, 0, 0⟩ : Alloc), budget, 0⟩
      (minPriceOf_le _) (rem_le_fuel_mul budget _ hmin)
    rw [pureUtilityRun]
    rcases h2 : phase2 calculateUtilityQ
        (⌈budget / minPriceOf (cats.map fun c => (⟨c, 0, 0, 0⟩ : Alloc))⌉.toNat + 1)
        ⟨cats.map fun c => (⟨c, 0, 0, 0⟩ : Alloc), budget, 0⟩ with _ | st2
    · rw [h2] at hsome; simp at hsome
    · simp
  · have hpred : ∀ a ∈ (baState cats budget).allocs, 0 < a.category.price := by
      rw [baState]
      refine baPhase1_fold_pred calculateUtilityQ (fun c => 0 < c.price) _ _ ?_
      intro a ha
      obtain ⟨c, hc, rfl⟩ := List.mem_map.mp ha
      exact hpos c hc
    have hmin := minPriceOf_pos _ hpred
    refine ⟨⌈(baState cats budget).rem / minPriceOf (baState cats budget).allocs⌉.toNat + 1, ?_⟩
    have hsome := phase2_isSome calculateUtilityQ
      (minPriceOf (baState cats budget).allocs)
      (⌈(baState cats budget).rem / minPriceOf (baState cats budget).allocs⌉.toNat)
      (baState cats budget)
      (minPriceOf_le _) (rem_le_fuel_mul _ _ hmin)
    rw [balancedRun]
    rcases h2 : phase2 calculateUtilityQ
        (⌈(baState cats budget).rem / minPriceOf (baState cats budget).allocs⌉.toNat + 1)
        (baState cats budget) with _ | st2
    · rw [h2] at hsome; simp at hsome
    · simp

/-- Witness for the amended C5 at a concrete input. -/
theorem C5_amended_termination_witness :
    (∀ c ∈ ([⟨"A", 2, 1, 3, 1/2, 9⟩] : List Category), 0 < c.price) ∧ (0:ℚ) ≤ 7 ∧
      (∀ c ∈ ([⟨"A", 2, 1, 3, 1/2, 9⟩] : List Category),
        0 < c.utilityFactor ∧ 0 ≤ c.basicNeedAmount ∧ 0 ≤ c.diminishingFactor ∧
          c.diminishingFactor ≤ 1 ∧ 1 ≤ c.necessityLevel ∧ c.necessityLevel ≤ 10) ∧
      ((∃ fuel, (pureUtilityRun fuel [⟨"A", 2, 1, 3, 1/2, 9⟩] 7).isSome) ∧
        ∃ fuel, (balancedRun fuel [⟨"A", 2, 1, 3, 1/2, 9⟩] 7).isSome) :=
  ⟨by intro c hc; simp only [List.mem_singleton] at hc; subst hc; norm_num,
    by norm_num,
    by intro c hc; simp only [List.mem_singleton] at hc; subst hc; norm_num,
    C5_amended_termination [⟨"A", 2, 1, 3, 1/2, 9⟩] 7
      (by intro c hc; simp only [List.mem_singleton] at hc; subst hc; norm_num)
      (by norm_num)
      (by intro c hc; simp only [List.mem_singleton] at hc; subst hc; norm_num)⟩

/-- The utility of the free flat category (price 0, utility factor 1, basic
need 0, diminishing factor 1, necessity 1) at a whole-unit quantity is the
quantity itself. -/
theorem calculateUtilityQ_free_flat (k : ℕ) :
    calculateUtilityQ ⟨"Free", 0, 1, 0, 1, 1⟩ (k : ℚ) = (k : ℚ) := by
  unfold calculateUtilityQ
  rw [if_neg (by norm_num), if_neg (not_lt.mpr (by exact_mod_cast Nat.cast_nonneg k))]
  show 1 * 1 * 0 + ((k : ℚ) - 0) * 1 * powQ 1 ((k : ℚ) - 0) = (k : ℚ)
  rw [powQ]
  rw [if_pos (by rw [sub_zero, Rat.den_natCast])]
  rw [sub_zero, one_zpow]
  ring

/-- The surplus loop never finishes on the free flat category: its marginal
utility per cost is `1 / 0 = +Infinity` forever, each purchase costs nothing,
and the budget never shrinks. -/
theorem phase2_free_flat_none :
    ∀ (fuel : ℕ) (st : GreedyState),
      (∃ (k : ℕ) (uval s : ℚ),
        st.allocs = [⟨⟨"Free", 0, 1, 0, 1, 1⟩, (k : ℚ), uval, s⟩]) →
      st.rem = 1 →
      phase2 calculateUtilityQ fuel st = none := by
  intro fuel
  induction fuel with
  | zero => intro st _ _; rfl
  | succ m ih =>
    rintro st ⟨k, uval, s, hallocs⟩ hrem
    have hmarg : calculateUtilityQ ⟨"Free", 0, 1, 0, 1, 1⟩ ((k : ℚ) + 1) -
        calculateUtilityQ ⟨"Free", 0, 1, 0, 1, 1⟩ (k : ℚ) = 1 := by
      have h1 := calculateUtilityQ_free_flat (k + 1)
      push_cast at h1
      rw [h1, calculateUtilityQ_free_flat k]
      ring
    have hfb : findBest calculateUtilityQ st.rem st.allocs =
        (JsVal.posInf, some 0) := by
      rw [hallocs, hrem]
      unfold findBest findBestAux
      rw [if_pos (by norm_num)]
      dsimp only
      rw [hmarg]
      have hdiv : jsDiv 1 (0 : ℚ) = JsVal.posInf := by norm_num [jsDiv]
      rw [hdiv]
      rfl
    unfold phase2
    rw [if_pos (by rw [hrem]; norm_num), hfb]
    dsimp only
    rw [if_pos (by rfl)]
    refine ih _ ⟨k + 1, ?_⟩ ?_
    · refine ⟨calculateUtilityQ ⟨"Free", 0, 1, 0, 1, 1⟩ ((k : ℚ) + 1), s + 0, ?_⟩
      unfold buyAt
      rw [hallocs]
      dsimp only
      push_cast
      rfl
    · unfold buyAt
      rw [hallocs]
      dsimp only
      rw [hrem]
      norm_num

/-- C5 (counterexample): on the single free flat category (price 0,
diminishing factor 1 — both inside the claim's documented domains) with
budget 1, the Pure-Utility unit-buying loop never reaches its break nor
exhausts the budget: no amount of fuel completes the run (in IEEE floats the
JavaScript loop would spin until the quantity absorbs the increment, far
beyond the claimed `budget / min(price)` bound). -/
theorem C5_counterexample_nontermination :
    ¬ ∃ fuel r, pureUtilityRun fuel [⟨"Free", 0, 1, 0, 1, 1⟩] 1 = some r := by
  rintro ⟨fuel, r, h⟩
  rw [pureUtilityRun] at h
  have hnone : phase2 calculateUtilityQ fuel
      ⟨[⟨⟨"Free", 0, 1, 0, 1, 1⟩, 0, 0, 0⟩], 1, 0⟩ = none := by
    refine phase2_free_flat_none fuel _ ⟨0, 0, 0, by norm_num⟩ rfl
  simp only [List.map_cons, List.map_nil] at h
  rw [hnone] at h
  simp at h

/-- Witness for the amended C6 at a concrete input. -/
theorem C6_amended_free_good_witness :
    (⟨"Free", 0, 1, 10, 1/2, 5⟩ : Category) ∈
        ([⟨"Free", 0, 1, 10, 1/2, 5⟩] : List Category) ∧
      (⟨"Free", 0, 1, 10, (1:ℚ)/2, 5⟩ : Category).price = 0 ∧
      (0:ℚ) < (⟨"Free", 0, 1, 10, (1:ℚ)/2, 5⟩ : Category).utilityFactor ∧
      (0:ℚ) < (⟨"Free", 0, 1, 10, (1:ℚ)/2, 5⟩ : Category).basicNeedAmount ∧
      ∃ a ∈ (gdCalculate [⟨"Free", 0, 1, 10, 1/2, 5⟩] 5).allocations,
        a.category = ⟨"Free", 0, 1, 10, 1/2, 5⟩ ∧
          a.quantity = (⟨"Free", 0, 1, 10, (1:ℚ)/2, 5⟩ : Category).basicNeedAmount ∧
          a.spent = 0 :=
  ⟨by simp, rfl, by norm_num, by norm_num,
    C6_amended_free_good_gradientDescent [⟨"Free", 0, 1, 10, 1/2, 5⟩] 5
      ⟨"Free", 0, 1, 10, 1/2, 5⟩ (by simp) rfl (by norm_num) (by norm_num)⟩

/-- The basic-needs loop never decreases the quantity. -/
theorem needsLoop_qty_ge (p bna : ℚ) :
    ∀ (fuel : ℕ) (q s rem : ℚ), q ≤ (needsLoop p bna fuel q s rem).1 := by
  intro fuel
  induction fuel with
  | zero => intro q s rem; simp [needsLoop]
  | succ m ih =>
    intro q s rem
    unfold needsLoop
    by_cases hc : q < bna ∧ p ≤ rem
    · rw [if_pos hc]
      exact le_trans (by linarith) (ih (q + 1) (s + p) (rem - p))
    · rw [if_neg hc]

/-- The basic-needs loop spends exactly the price of each unit bought. -/
theorem needsLoop_rem_eq (p bna : ℚ) :
    ∀ (fuel : ℕ) (q s rem : ℚ),
      (needsLoop p bna fuel q s rem).2.2 =
        rem - p * ((needsLoop p bna fuel q s rem).1 - q) := by
  intro fuel
  induction fuel with
  | zero => intro q s rem; simp [needsLoop]
  | succ m ih =>
    intro q s rem
    unfold needsLoop
    by_cases hc : q < bna ∧ p ≤ rem
    · rw [if_pos hc]
      rw [ih (q + 1) (s + p) (rem - p)]
      ring
    · rw [if_neg hc]
      simp

/-- The basic-needs loop buys at least as much from a larger budget. -/
theorem needsLoop_qty_mono (p bna : ℚ) :
    ∀ (fuel : ℕ) (q s s2 rem rem' : ℚ), rem ≤ rem' →
      (needsLoop p bna fuel q s rem).1 ≤ (needsLoop p bna fuel q s2 rem').1 := by
  intro fuel
  induction fuel with
  | zero => intro q s s2 rem rem' _; simp [needsLoop]
  | succ m ih =>
    intro q s s2 rem rem' hr
    unfold needsLoop
    by_cases hc : q < bna ∧ p ≤ rem
    · rw [if_pos hc, if_pos ⟨hc.1, le_trans hc.2 hr⟩]
      exact ih (q + 1) (s + p) (s2 + p) (rem - p) (rem' - p) (by linarith)
    · rw [if_neg hc]
      by_cases hc2 : q < bna ∧ p ≤ rem'
      · rw [if_pos hc2]
        exact le_trans (by linarith) (needsLoop_qty_ge p bna m (q + 1) (s2 + p) (rem' - p))
      · rw [if_neg hc2]

/-- The basic-needs loop buys whole units. -/
theorem needsLoop_qty_nat (p bna : ℚ) (fuel : ℕ) (rem : ℚ) :
    ∃ n : ℕ, (needsLoop p bna fuel 0 0 rem).1 = (n : ℚ) := by
  have := needsLoop_inv p bna (fun q _ _ => ∃ n : ℕ, q = (n : ℚ))
    (fun q s r _ _ hq => by
      obtain ⟨n, rfl⟩ := hq
      exact ⟨n + 1, by push_cast; ring⟩)
    fuel 0 0 rem ⟨0, by norm_num⟩
  exact this

/-- Indexing into a one-element list. -/
theorem singleton_getElem {x a : Alloc} {i : ℕ}
    (h : ([x] : List Alloc)[i]? = some a) : i = 0 ∧ a = x := by
  cases i with
  | zero => simp_all
  | succ n => simp at h

/-- The best-purchase scan on a single allocation. -/
theorem findBest_singleton (u : Category → ℚ → ℚ) (rem : ℚ) (a : Alloc) :
    findBest u rem [a] =
      if a.category.price ≤ rem then
        if (jsDiv (u a.category (a.quantity + 1) - u a.category a.quantity)
            a.category.price).gt (JsVal.rat 0) then
          (jsDiv (u a.category (a.quantity + 1) - u a.category a.quantity)
            a.category.price, some 0)
        else (JsVal.rat 0, none)
      else (JsVal.rat 0, none) := by
  unfold findBest findBestAux
  by_cases hp : a.category.price ≤ rem
  · rw [if_pos hp, if_pos hp]
    dsimp only
    by_cases hgt : (jsDiv (u a.category (a.quantity + 1) - u a.category a.quantity)
        a.category.price).gt (JsVal.rat 0)
    · rw [if_pos hgt, if_pos hgt]
      rfl
    · rw [if_neg hgt, if_neg hgt]
      rfl
  · rw [if_neg hp, if_neg hp]
    rfl

/-- With a positive price, a positive utility-per-cost ratio is exactly a
positive marginal utility. -/
theorem ratio_gt_zero_iff (marg p : ℚ) (hp : 0 < p) :
    (jsDiv marg p).gt (JsVal.rat 0) = true ↔ 0 < marg := by
  rw [jsDiv, if_neg (ne_of_gt hp)]
  show decide (0 < marg / p) = true ↔ 0 < marg
  rw [decide_eq_true_eq]
  constructor
  · intro h
    by_contra hneg
    push_neg at hneg
    have : marg / p ≤ 0 := div_nonpos_of_nonpos_of_nonneg hneg (le_of_lt hp)
    linarith
  · intro h
    exact div_pos h hp

/-- Through the surplus loop a single allocation stays a single allocation of
the same category, and its quantity never decreases. -/
theorem phase2_singleton_ge (u : Category → ℚ → ℚ) (c : Category) (q0 : ℚ)
    (fuel : ℕ) (st stf : GreedyState)
    (hshape : ∃ uv sv, st.allocs = [⟨c, q0, uv, sv⟩])
    (hrun : phase2 u fuel st = some stf) :
    ∃ qf uf sf, stf.allocs = [⟨c, qf, uf, sf⟩] ∧ q0 ≤ qf := by
  have := phase2_invariant u
    (fun s => ∃ qq uu ss, s.allocs = [⟨c, qq, uu, ss⟩] ∧ q0 ≤ qq)
    (fun s i a hgi hle hP => by
      obtain ⟨qq, uu, ss, hsa, hq⟩ := hP
      rw [hsa] at hgi
      obtain ⟨rfl, rfl⟩ := singleton_getElem hgi
      show ∃ qq2 uu2 ss2, (buyAt u s 0).allocs = [⟨c, qq2, uu2, ss2⟩] ∧ q0 ≤ qq2
      unfold buyAt
      rw [hsa]
      simp only [List.getElem?_cons_zero]
      exact ⟨qq + 1, _, _, rfl, by linarith⟩)
    fuel st stf hrun
  obtain ⟨uv, sv, hsa⟩ := hshape
  obtain ⟨qf, uf, sf, hfa, hq⟩ := this ⟨q0, uv, sv, hsa, le_rfl⟩
  exact ⟨qf, uf, sf, hfa, hq⟩

/-- Larger starting budget (relative to the head start of the richer run)
never yields a smaller final quantity for a single positive-price category:
the poorer run either stops short of the richer run's head start or catches it
up with at least as little spent. -/
theorem phase2_singleton_mono (u : Category → ℚ → ℚ) (c : Category)
    (hp : 0 < c.price) :
    ∀ (f1 : ℕ) (q : ℚ) (k : ℕ) (uv sv uv' sv' tu tu' rem rem' : ℚ)
      (f2 : ℕ) (st1f st2f : GreedyState),
      phase2 u f1 ⟨[⟨c, q, uv, sv⟩], rem, tu⟩ = some st1f →
      phase2 u f2 ⟨[⟨c, q + (k : ℚ), uv', sv'⟩], rem', tu'⟩ = some st2f →
      rem - c.price * (k : ℚ) ≤ rem' →
      ∀ a1 ∈ st1f.allocs, ∀ a2 ∈ st2f.allocs, a1.quantity ≤ a2.quantity := by
  intro f1
  induction f1 with
  | zero =>
    intro q k uv sv uv' sv' tu tu' rem rem' f2 st1f st2f h1 h2 hr
    simp [phase2] at h1
  | succ m ih =>
    intro q k uv sv uv' sv' tu tu' rem rem' f2 st1f st2f h1 h2 hr
    obtain ⟨qf2, uf2, sf2, hst2alloc, hqf2⟩ :=
      phase2_singleton_ge u c (q + (k : ℚ)) f2 _ st2f ⟨uv', sv', rfl⟩ h2
    have hbreak : st1f.allocs = [⟨c, q, uv, sv⟩] →
        ∀ a1 ∈ st1f.allocs, ∀ a2 ∈ st2f.allocs, a1.quantity ≤ a2.quantity := by
      intro hfa a1 ha1 a2 ha2
      rw [hfa, List.mem_singleton] at ha1
      rw [hst2alloc, List.mem_singleton] at ha2
      subst ha1
      subst ha2
      show q ≤ qf2
      have : (0:ℚ) ≤ (k : ℚ) := by positivity
      linarith
    unfold phase2 at h1
    dsimp only at h1
    by_cases h0 : (0:ℚ) < rem
    · rw [if_pos h0, findBest_singleton] at h1
      dsimp only at h1
      by_cases haff : c.price ≤ rem
      · rw [if_pos haff] at h1
        by_cases hmarg : (jsDiv (u c (q + 1) - u c q) c.price).gt (JsVal.rat 0)
        · rw [if_pos hmarg] at h1
          dsimp only at h1
          rw [if_pos hmarg] at h1
          have hbuy : buyAt u ⟨[⟨c, q, uv, sv⟩], rem, tu⟩ 0 =
              ⟨[⟨c, q + 1, u c (q + 1), sv + c.price⟩], rem - c.price,
                tu + (u c (q + 1) - uv)⟩ := by
            unfold buyAt
            simp only [List.getElem?_cons_zero]
            rfl
          rw [hbuy] at h1
          cases k with
          | zero =>
            simp only [Nat.cast_zero, add_zero, mul_zero, sub_zero] at h2 hr
            have hrem' : (0:ℚ) < rem' := lt_of_lt_of_le h0 hr
            cases f2 with
            | zero => simp [phase2] at h2
            | succ m2 =>
              unfold phase2 at h2
              dsimp only at h2
              rw [if_pos hrem', findBest_singleton] at h2
              dsimp only at h2
              rw [if_pos (le_trans haff hr), if_pos hmarg] at h2
              dsimp only at h2
              rw [if_pos hmarg] at h2
              have hbuy2 : buyAt u ⟨[⟨c, q, uv', sv'⟩], rem', tu'⟩ 0 =
                  ⟨[⟨c, q + 1, u c (q + 1), sv' + c.price⟩], rem' - c.price,
                    tu' + (u c (q + 1) - uv')⟩ := by
                unfold buyAt
                simp only [List.getElem?_cons_zero]
                rfl
              rw [hbuy2] at h2
              have hcast : q + 1 + ((0 : ℕ) : ℚ) = q + 1 := by norm_num
              refine ih (q + 1) 0 (u c (q + 1)) (sv + c.price) (u c (q + 1))
                (sv' + c.price) (tu + (u c (q + 1) - uv)) (tu' + (u c (q + 1) - uv'))
                (rem - c.price) (rem' - c.price) m2 st1f st2f h1 ?_ ?_
              · rw [hcast]
                exact h2
              · push_cast
                linarith
          | succ k2 =>
            have hcast : q + ((k2 + 1 : ℕ) : ℚ) = q + 1 + (k2 : ℚ) := by
              push_cast
              ring
            rw [hcast] at h2
            refine ih (q + 1) k2 (u c (q + 1)) (sv + c.price) uv' sv'
              (tu + (u c (q + 1) - uv)) tu' (rem - c.price) rem' f2 st1f st2f h1 h2 ?_
            push_cast at hr ⊢
            linarith
        · rw [if_neg hmarg] at h1
          dsimp only at h1
          have : st1f = ⟨[⟨c, q, uv, sv⟩], rem, tu⟩ := by
            injection h1 with h
            exact h.symm
          exact hbreak (by rw [this])
      · rw [if_neg haff] at h1
        dsimp only at h1
        have : st1f = ⟨[⟨c, q, uv, sv⟩], rem, tu⟩ := by
          injection h1 with h
          exact h.symm
        exact hbreak (by rw [this])
    · rw [if_neg h0] at h1
      have : st1f = ⟨[⟨c, q, uv, sv⟩], rem, tu⟩ := by
        injection h1 with h
        exact h.symm
      exact hbreak (by rw [this])

/-- The first pass on a single positive-price category is one basic-needs
loop from the whole budget. -/
theorem pnPhase1_singleton (u : Category → ℚ → ℚ) (c : Category)
    (hp : 0 < c.price) (b : ℚ) :
    pnPhase1 u [c] b =
      ⟨[⟨c, (needsLoop c.price c.basicNeedAmount (⌈c.basicNeedAmount⌉.toNat) 0 0 b).1,
          u c (needsLoop c.price c.basicNeedAmount (⌈c.basicNeedAmount⌉.toNat) 0 0 b).1,
          (needsLoop c.price c.basicNeedAmount (⌈c.basicNeedAmount⌉.toNat) 0 0 b).2.1⟩],
        (needsLoop c.price c.basicNeedAmount (⌈c.basicNeedAmount⌉.toNat) 0 0 b).2.2,
        0 + u c (needsLoop c.price c.basicNeedAmount (⌈c.basicNeedAmount⌉.toNat) 0 0 b).1⟩ := by
  unfold pnPhase1
  simp only [List.foldl_cons, List.foldl_nil]
  unfold pnPhase1Step
  rw [if_neg (not_le.mpr hp)]
  rfl

/-- C8 (amended): for a single category with positive price, raising the
budget never lowers the allocated quantity (the original claim over arbitrary
category lists is refuted by the counterexample). -/
theorem C8_amended_single_category_quantity_monotone (c : Category)
    (b b' : ℚ) (hp : 0 < c.price) (hbb : b ≤ b') :
    ∀ a1 ∈ (priorityNecessityCalculate [c] b).allocations,
      ∀ a2 ∈ (priorityNecessityCalculate [c] b').allocations,
        a1.quantity ≤ a2.quantity := by
  obtain ⟨st2, hs2, heq⟩ := priorityNecessityCalculate_eq [c] b
  obtain ⟨st2', hs2', heq'⟩ := priorityNecessityCalculate_eq [c] b'
  have hsort : sortCats [c] = [c] := by simp [sortCats, sortB, insertB]
  rw [hsort] at hs2 hs2'
  rw [pnPhase1_singleton calculateUtilityQ c hp b] at hs2
  rw [pnPhase1_singleton calculateUtilityQ c hp b'] at hs2'
  obtain ⟨n1, hn1⟩ := needsLoop_qty_nat c.price c.basicNeedAmount
    (⌈c.basicNeedAmount⌉.toNat) b
  obtain ⟨n1', hn1'⟩ := needsLoop_qty_nat c.price c.basicNeedAmount
    (⌈c.basicNeedAmount⌉.toNat) b'
  have hq_mono : (needsLoop c.price c.basicNeedAmount (⌈c.basicNeedAmount⌉.toNat)
      0 0 b).1 ≤ (needsLoop c.price c.basicNeedAmount (⌈c.basicNeedAmount⌉.toNat)
      0 0 b').1 :=
    needsLoop_qty_mono c.price c.basicNeedAmount (⌈c.basicNeedAmount⌉.toNat)
      0 0 0 b b' hbb
  have hk : n1 ≤ n1' := by
    rw [hn1, hn1'] at hq_mono
    exact_mod_cast hq_mono
  have hrem : (needsLoop c.price c.basicNeedAmount (⌈c.basicNeedAmount⌉.toNat)
      0 0 b).2.2 = b - c.price * (n1 : ℚ) := by
    rw [needsLoop_rem_eq, hn1]
    ring
  have hrem' : (needsLoop c.price c.basicNeedAmount (⌈c.basicNeedAmount⌉.toNat)
      0 0 b').2.2 = b' - c.price * (n1' : ℚ) := by
    rw [needsLoop_rem_eq, hn1']
    ring
  rw [hn1, hrem] at hs2
  rw [hn1', hrem'] at hs2'
  have hcast : ((n1' : ℚ)) = (n1 : ℚ) + ((n1' - n1 : ℕ) : ℚ) := by
    push_cast [Nat.cast_sub hk]
    ring
  rw [hcast] at hs2'
  have hmono := phase2_singleton_mono calculateUtilityQ c hp _ (n1 : ℚ)
    (n1' - n1)
    (calculateUtilityQ c (n1 : ℚ)) _ _ _ _ _ _ _ _ st2 st2' hs2 hs2' ?_
  · intro a1 ha1 a2 ha2
    rw [heq, pnMkResult_allocations] at ha1
    rw [heq', pnMkResult_allocations] at ha2
    exact hmono a1 ha1 a2 ha2
  · push_cast [Nat.cast_sub hk]
    linarith

/-- Witness for the amended C8 at a concrete input. -/
theorem C8_amended_single_category_quantity_monotone_witness :
    (0:ℚ) < (⟨"A", 2, 1, 3, 1/2, 9⟩ : Category).price ∧ (3:ℚ) ≤ 7 ∧
      ∀ a1 ∈ (priorityNecessityCalculate [⟨"A", 2, 1, 3, 1/2, 9⟩] 3).allocations,
        ∀ a2 ∈ (priorityNecessityCalculate [⟨"A", 2, 1, 3, 1/2, 9⟩] 7).allocations,
          a1.quantity ≤ a2.quantity :=
  ⟨by norm_num, by norm_num,
    C8_amended_single_category_quantity_monotone ⟨"A", 2, 1, 3, 1/2, 9⟩ 3 7
      (by norm_num) (by norm_num)⟩
